import Mathlib

/-!
Verification development for the slang elaboration engine
(semantic-analysis core of a SystemVerilog front-end).

The definitions below are a shallow embedding of the C++ sources:
  * source/symbols/TypeSymbols.cpp   (type relations, enum/struct/union/array construction)
  * source/binding/Expressions_eval.cpp (constant evaluator)
  * symbols/DeclaredType.cpp         (lazy declared-type resolution)
  * symbols/PortBuilder.h            (port connection building)
Machine values use Nat/Int with explicit masking.  Leaf utilities of the
numeric library (SVInt, ConstantRange) are not part of the embedded source
files; they are modelled from the specification where needed and marked so.
-/

set_option maxHeartbeats 1000000

namespace Slang

/-- Modelled from the spec: `ConstantRange` from the numeric utility library
(not among the embedded source files).  It stores the `left` and `right`
bounds of a dimension as written; the range is little-endian when
`left >= right`, its width is the number of elements between the bounds. -/
structure ConstantRange where
  left : Int
  right : Int
deriving DecidableEq, Repr

/-- Number of elements covered by the range. -/
def ConstantRange.width (r : ConstantRange) : Nat :=
  (r.left - r.right).natAbs + 1

/-- A range is little-endian when `left >= right`. -/
def ConstantRange.isLittleEndian (r : ConstantRange) : Bool :=
  r.right ≤ r.left

/-- Whether an index lies between the two bounds of the range. -/
def ConstantRange.containsPoint (r : ConstantRange) (i : Int) : Bool :=
  if r.isLittleEndian then r.right ≤ i && i ≤ r.left
  else i ≤ r.right && r.left ≤ i

/-- Translate a source-level index to a zero-based offset. -/
def ConstantRange.translateIndex (r : ConstantRange) (i : Int) : Int :=
  if r.isLittleEndian then i - r.right else r.right - i

/-- The larger of the two bounds. -/
def ConstantRange.upper (r : ConstantRange) : Int := max r.left r.right

/-- The smaller of the two bounds. -/
def ConstantRange.lower (r : ConstantRange) : Int := min r.left r.right

/-- Swap the two bounds (`ConstantRange::reverse`). -/
def ConstantRange.reverse (r : ConstantRange) : ConstantRange := ⟨r.right, r.left⟩

/-- Scalar type kinds (`ScalarType::Kind`). -/
inductive ScalarKind where
  | bit
  | logic
  | reg
deriving DecidableEq, Repr

/-- Predefined integer type kinds (`PredefinedIntegerType::Kind`). -/
inductive PredefKind where
  | shortInt
  | int
  | longInt
  | byte
  | integer
  | time
deriving DecidableEq, Repr

/-- Floating type kinds (`FloatingType::Kind`). -/
inductive FloatKind where
  | real
  | shortReal
  | realTime
deriving DecidableEq, Repr

/-- Width table for predefined integer types (`getWidth` in TypeSymbols.cpp). -/
def PredefKind.width : PredefKind → Nat
  | .shortInt => 16
  | .int => 32
  | .longInt => 64
  | .byte => 8
  | .integer => 32
  | .time => 64

/-- Default signedness table (`getSigned` in TypeSymbols.cpp). -/
def PredefKind.defaultSigned : PredefKind → Bool
  | .shortInt => true
  | .int => true
  | .longInt => true
  | .byte => true
  | .integer => true
  | .time => false

/-- Four-state table (`getFourState` in TypeSymbols.cpp). -/
def PredefKind.fourState : PredefKind → Bool
  | .shortInt => false
  | .int => false
  | .longInt => false
  | .byte => false
  | .integer => true
  | .time => true

/-- Shallow embedding of the `Type` symbol hierarchy of TypeSymbols.h.
Arena-allocated type objects are identified by their structure; scope-owning
types (enums, structs, unions, classes) additionally carry a `uid` standing
for the identity of the originating object/syntax, so that equality of the
embedded representation corresponds to the pointer-or-shared-syntax equality
the source uses (built-ins and simple bit vectors are uniquified in the
compilation cache, so for them structural equality is pointer equality).
Stored attributes that the constructors of the source compute recursively
(bit width of packed arrays and enums, for example) are kept as derived
functions below rather than duplicated fields. -/
inductive Ty where
  | predefInt (kind : PredefKind) (signed : Bool)
  | scalar (kind : ScalarKind) (signed : Bool)
  | floating (kind : FloatKind)
  | enum (uid : Nat) (base : Ty)
  | packedArray (elem : Ty) (range : ConstantRange)
  | unpackedArray (elem : Ty) (range : ConstantRange)
  | packedStruct (uid : Nat) (width : Nat) (signed : Bool) (fourState : Bool)
  | packedUnion (uid : Nat) (width : Nat) (signed : Bool) (fourState : Bool)
  | unpackedStruct (uid : Nat) (fourState : Bool)
  | unpackedUnion (uid : Nat) (fourState : Bool)
  | classT (uid : Nat)
  | voidT
  | nullT
  | chandleT
  | stringT
  | eventT
  | errorT
  | typeAlias (uid : Nat) (target : Ty)
deriving DecidableEq, Repr

/-- Whether this node is a type alias (`Type::isAlias`; does not unwrap). -/
def Ty.isAliasKind : Ty → Bool
  | .typeAlias _ _ => true
  | _ => false

/-- Canonical type (`Type::getCanonicalType` / `Type::resolveCanonical`):
unwrap type aliases until a non-alias type is reached. -/
def Ty.canonical : Ty → Ty
  | .typeAlias _ t => t.canonical
  | .predefInt k s => .predefInt k s
  | .scalar k s => .scalar k s
  | .floating k => .floating k
  | .enum u b => .enum u b
  | .packedArray e r => .packedArray e r
  | .unpackedArray e r => .unpackedArray e r
  | .packedStruct u w s f => .packedStruct u w s f
  | .packedUnion u w s f => .packedUnion u w s f
  | .unpackedStruct u f => .unpackedStruct u f
  | .unpackedUnion u f => .unpackedUnion u f
  | .classT u => .classT u
  | .voidT => .voidT
  | .nullT => .nullT
  | .chandleT => .chandleT
  | .stringT => .stringT
  | .eventT => .eventT
  | .errorT => .errorT

/-- Kind check of `IntegralType::isKind`. -/
def Ty.isIntegralKind : Ty → Bool
  | .predefInt _ _ => true
  | .scalar _ _ => true
  | .enum _ _ => true
  | .packedArray _ _ => true
  | .packedStruct _ _ _ _ => true
  | .packedUnion _ _ _ _ => true
  | _ => false

/-- `Type::isIntegral`: kind check on the canonical type. -/
def Ty.isIntegral (t : Ty) : Bool := t.canonical.isIntegralKind

/-- `Type::isScalar`. -/
def Ty.isScalar (t : Ty) : Bool :=
  match t.canonical with
  | .scalar _ _ => true
  | _ => false

/-- `Type::isPredefinedInteger`. -/
def Ty.isPredefinedInteger (t : Ty) : Bool :=
  match t.canonical with
  | .predefInt _ _ => true
  | _ => false

/-- `Type::isFloating`. -/
def Ty.isFloating (t : Ty) : Bool :=
  match t.canonical with
  | .floating _ => true
  | _ => false

/-- `Type::isEnum`. -/
def Ty.isEnum (t : Ty) : Bool :=
  match t.canonical with
  | .enum _ _ => true
  | _ => false

/-- `Type::isString`. -/
def Ty.isString (t : Ty) : Bool :=
  match t.canonical with
  | .stringT => true
  | _ => false

/-- `Type::isError`. -/
def Ty.isError (t : Ty) : Bool :=
  match t.canonical with
  | .errorT => true
  | _ => false

/-- `Type::isPackedArray`. -/
def Ty.isPackedArray (t : Ty) : Bool :=
  match t.canonical with
  | .packedArray _ _ => true
  | _ => false

/-- `Type::isUnpackedArray`. -/
def Ty.isUnpackedArray (t : Ty) : Bool :=
  match t.canonical with
  | .unpackedArray _ _ => true
  | _ => false

/-- `Type::isUnpackedStruct`. -/
def Ty.isUnpackedStruct (t : Ty) : Bool :=
  match t.canonical with
  | .unpackedStruct _ _ => true
  | _ => false

/-- `Type::getBitWidth`.  The canonical type is consulted: integral types
report the `bitWidth` field their constructors computed (predefined width
table, 1 for scalars, base width for enums, element width times range width
for packed arrays - see `EnumType::EnumType` and
`PackedArrayType::PackedArrayType`), floating types report 64/64/32, and
all other types report 0. -/
def Ty.getBitWidth : Ty → Nat
  | .typeAlias _ t => t.getBitWidth
  | .predefInt k _ => k.width
  | .scalar _ _ => 1
  | .enum _ base => base.getBitWidth
  | .packedArray elem r => elem.getBitWidth * r.width
  | .packedStruct _ w _ _ => w
  | .packedUnion _ w _ _ => w
  | .floating .real => 64
  | .floating .realTime => 64
  | .floating .shortReal => 32
  | _ => 0

/-- `Type::isSigned`: the `isSigned` field of the canonical integral type
(enum and packed array constructors inherit it from base/element type),
false for non-integral types. -/
def Ty.isSigned : Ty → Bool
  | .typeAlias _ t => t.isSigned
  | .predefInt _ s => s
  | .scalar _ s => s
  | .enum _ base => base.isSigned
  | .packedArray elem _ => elem.isSigned
  | .packedStruct _ _ s _ => s
  | .packedUnion _ _ s _ => s
  | _ => false

/-- `Type::isFourState`: the `isFourState` field for canonical integral
types (again inherited through enum bases and packed array elements),
recursion into element types for unpacked arrays, the or of the member
four-state flags for unpacked structs/unions (kept as a stored flag of the
embedding), false otherwise. -/
def Ty.isFourState : Ty → Bool
  | .typeAlias _ t => t.isFourState
  | .predefInt k _ => k.fourState
  | .scalar k _ => decide (k ≠ ScalarKind.bit)
  | .enum _ base => base.isFourState
  | .packedArray elem _ => elem.isFourState
  | .packedStruct _ _ _ f => f
  | .packedUnion _ _ _ f => f
  | .unpackedArray elem _ => elem.isFourState
  | .unpackedStruct _ f => f
  | .unpackedUnion _ f => f
  | _ => false

/-- `Type::isSimpleBitVector`: canonical predefined integer or scalar, or a
packed array whose element type is a scalar. -/
def Ty.isSimpleBitVector (t : Ty) : Bool :=
  let ct := t.canonical
  if ct.isPredefinedInteger || ct.isScalar then true
  else
    match ct with
    | .packedArray elem _ => elem.isScalar
    | _ => false

/-- `IntegralType::getBitVectorRange`: predefined integers, scalars and
packed structs/unions report `{bitWidth-1, 0}`; packed arrays report their
declared range.  Only invoked on canonical integral types. -/
def Ty.getBitVectorRange : Ty → ConstantRange
  | .packedArray _ r => r
  | t => ⟨(t.getBitWidth : Int) - 1, 0⟩

/-- `Type::getArrayRange`: the bit-vector range for canonical integral
types, the declared range for unpacked arrays, an empty (zero) range
otherwise. -/
def Ty.getArrayRange (t : Ty) : ConstantRange :=
  let ct := t.canonical
  if ct.isIntegralKind then ct.getBitVectorRange
  else
    match ct with
    | .unpackedArray _ r => r
    | _ => ⟨0, 0⟩

/-- Unwrapping aliases never increases the size of the representation;
used for the termination of the type-relation functions, which follow the
source in re-canonicalizing element types at every level. -/
theorem Ty.sizeOf_canonical_le (t : Ty) : sizeOf t.canonical ≤ sizeOf t := by
  induction t with
  | typeAlias u target ih =>
    simp only [Ty.canonical]
    have : sizeOf target < sizeOf (Ty.typeAlias u target) := by
      simp only [Ty.typeAlias.sizeOf_spec]
      omega
    omega
  | _ => simp [Ty.canonical]

/-- Body of `Type::isMatching` (TypeSymbols.cpp, [6.22.1]).  Both arguments
are the already-canonicalized `l` and `r` of the source; element types are
re-canonicalized before the recursive comparison, exactly as the recursive
call `elementType.isMatching(...)` does.  The first test models the
pointer-or-shared-syntax equality of the source (`l == r`, or both created
from the same syntax node): in the arena/uniquifying model, equality of the
embedded representation. -/
def mCore (l r : Ty) : Bool :=
  if l = r then true
  else if l.isScalar && r.isScalar then
    match l, r with
    | .scalar lk _, .scalar rk _ =>
      (lk == ScalarKind.logic || lk == ScalarKind.reg) &&
      (rk == ScalarKind.logic || rk == ScalarKind.reg)
    | _, _ => false
  else if l.isFloating && r.isFloating then
    match l, r with
    | .floating lk, .floating rk =>
      (lk == FloatKind.real || lk == FloatKind.realTime) &&
      (rk == FloatKind.real || rk == FloatKind.realTime)
    | _, _ => false
  else if l.isSimpleBitVector && r.isSimpleBitVector &&
          l.isPredefinedInteger != r.isPredefinedInteger then
    l.isSigned == r.isSigned && l.isFourState == r.isFourState &&
    l.getBitVectorRange == r.getBitVectorRange
  else
    match l, r with
    | .packedArray le lr, .packedArray re rr =>
      lr == rr && mCore le.canonical re.canonical
    | .unpackedArray le lr, .unpackedArray re rr =>
      lr == rr && mCore le.canonical re.canonical
    | _, _ => false
termination_by sizeOf l + sizeOf r
decreasing_by
  all_goals
    simp only [Ty.packedArray.sizeOf_spec, Ty.unpackedArray.sizeOf_spec]
    have h1 := Ty.sizeOf_canonical_le le
    have h2 := Ty.sizeOf_canonical_le re
    omega

/-- `Type::isMatching`: canonicalize both sides, then compare. -/
def Ty.isMatching (a b : Ty) : Bool := mCore a.canonical b.canonical

/-- Body of `Type::isEquivalent` (TypeSymbols.cpp, [6.22.2]) on canonical
arguments: matching types are equivalent; non-enum integral types are
equivalent when signedness, four-stateness and bit width agree; unpacked
arrays are equivalent when their ranges have equal width and their element
types are equivalent. -/
def eCore (l r : Ty) : Bool :=
  if mCore l r then true
  else if l.isIntegral && r.isIntegral && !l.isEnum && !r.isEnum then
    l.isSigned == r.isSigned && l.isFourState == r.isFourState &&
    l.getBitWidth == r.getBitWidth
  else
    match l, r with
    | .unpackedArray le lr, .unpackedArray re rr =>
      lr.width == rr.width && eCore le.canonical re.canonical
    | _, _ => false
termination_by sizeOf l + sizeOf r
decreasing_by
  simp only [Ty.unpackedArray.sizeOf_spec]
  have h1 := Ty.sizeOf_canonical_le le
  have h2 := Ty.sizeOf_canonical_le re
  omega

/-- `Type::isEquivalent`. -/
def Ty.isEquivalent (a b : Ty) : Bool := eCore a.canonical b.canonical

/-- Body of `Type::isAssignmentCompatible` (TypeSymbols.cpp, [6.22.3]) on
canonical arguments: equivalent types are assignment compatible; otherwise
any integral or floating value can be implicitly converted to a (non-enum)
packed integral or floating target. -/
def aCore (l r : Ty) : Bool :=
  if eCore l r then true
  else if (l.isIntegral && !l.isEnum) || l.isFloating then
    r.isIntegral || r.isFloating
  else false

/-- `Type::isAssignmentCompatible`. -/
def Ty.isAssignmentCompatible (a b : Ty) : Bool := aCore a.canonical b.canonical

/-- Body of `Type::isCastCompatible` (TypeSymbols.cpp, [6.22.4]) on
canonical arguments: assignment-compatible types are cast compatible;
otherwise an enum target accepts any integral or floating source, and a
string on exactly one side casts to or from an integral type. -/
def cCore (l r : Ty) : Bool :=
  if aCore l r then true
  else if l.isEnum then r.isIntegral || r.isFloating
  else if l.isString then r.isIntegral
  else if r.isString then l.isIntegral
  else false

/-- `Type::isCastCompatible`. -/
def Ty.isCastCompatible (a b : Ty) : Bool := cCore a.canonical b.canonical

/-- Diagnostic codes of the diagnostic definition table, restricted to the
codes used by the embedded functions. -/
inductive DiagCode where
  | EnumValueDuplicate
  | EnumIncrementUnknown
  | EnumValueOverflow
  | PackedMemberNotIntegral
  | PackedUnionWidthMismatch
  | NoteArrayIndexInvalid
  | NotePartSelectInvalid
  | NoteStringIndexInvalid
  | NoteNonConstVariable
  | NoteDeclarationHere
  | NoteHierarchicalNameInCE
  | NoteFunctionIdentifiersMustBeLocal
  | NoteParamUsedInCEBeforeDecl
  | ImplicitNamedPortNotFound
  | ImplicitNamedPortTypeMismatch
deriving DecidableEq, Repr

/-- `PackedArrayType::fromSyntax`: an error element type propagates
unchanged, otherwise a packed array type over the element type and range is
allocated (its `bitWidth` field is element width times range width, see
`PackedArrayType::PackedArrayType` and `Ty.getBitWidth`). -/
def PackedArrayType.fromSyntax (elementType : Ty) (range : ConstantRange) : Ty :=
  if elementType.isError then elementType
  else Ty.packedArray elementType range

/-- One member of a packed struct/union body as consumed by
`PackedStructType::fromSyntax` / `PackedUnionType::fromSyntax`: the resolved
type of the member (the result of `compilation.getType(*member->type, ...)`)
and the number of declarators it carries.  Declarator names, attributes and
the auxiliary per-declarator checks (unpacked dimensions, initializers) do
not influence widths or the diagnostics embedded here and are omitted. -/
structure StructMemberSyntax where
  ty : Ty
  declCount : Nat
deriving DecidableEq, Repr

/-- Accumulator of the member scan in `PackedStructType::fromSyntax`:
running bit width, four-state flag, created fields (type and bit offset, in
creation order, i.e. LSB first) and diagnostics. -/
structure PSAcc where
  bitWidth : Nat
  isFourState : Bool
  fields : List (Ty × Nat)
  diags : List DiagCode
deriving Repr

/-- The declarator loop of `PackedStructType::fromSyntax`: each declarator
creates a `FieldSymbol` at offset `bitWidth` and then adds the member type
width to `bitWidth`. -/
def packedStructAddDecls (ty : Ty) : Nat → Nat × List (Ty × Nat) → Nat × List (Ty × Nat)
  | 0, acc => acc
  | n + 1, (bw, fs) => packedStructAddDecls ty n (bw + ty.getBitWidth, fs ++ [(ty, bw)])

/-- One member iteration of `PackedStructType::fromSyntax`: or the member
type's four-stateness into the struct's, diagnose non-integral (non-error)
member types, then run the declarator loop. -/
def packedStructStep (acc : PSAcc) (m : StructMemberSyntax) : PSAcc :=
  let fourState := acc.isFourState || m.ty.isFourState
  let diags :=
    if !m.ty.isIntegral && !m.ty.isError then acc.diags ++ [DiagCode.PackedMemberNotIntegral]
    else acc.diags
  let r := packedStructAddDecls m.ty m.declCount (acc.bitWidth, acc.fields)
  ⟨r.1, fourState, r.2, diags⟩

/-- Result of constructing a packed struct or union type: the produced type
(the error type when the total width is zero), the created fields and the
diagnostics. -/
structure PackedAggregateResult where
  ty : Ty
  fields : List (Ty × Nat)
  diags : List DiagCode
deriving Repr

/-- `PackedStructType::fromSyntax` (without the trailing packed-dimension
wrapping, which goes through `PackedArrayType::fromSyntax`): members are
scanned in reverse (the syntax lists them MSB first), accumulating width,
four-stateness, fields and diagnostics; a zero total width produces the
error type, otherwise a fresh packed struct with the accumulated width. -/
def PackedStructType.fromSyntax (uid : Nat) (members : List StructMemberSyntax)
    (isSigned : Bool) : PackedAggregateResult :=
  let acc := members.reverse.foldl packedStructStep ⟨0, false, [], []⟩
  if acc.bitWidth = 0 then ⟨Ty.errorT, acc.fields, acc.diags⟩
  else ⟨Ty.packedStruct uid acc.bitWidth isSigned acc.isFourState, acc.fields, acc.diags⟩

/-- Accumulator of the member scan in `PackedUnionType::fromSyntax`. -/
structure PUAcc where
  bitWidth : Nat
  isFourState : Bool
  fields : List Ty
  diags : List DiagCode
deriving Repr

/-- The declarator loop of `PackedUnionType::fromSyntax`: every declarator
creates a field at offset 0; the first declarator with a not-yet-set union
width installs its member type width, and later declarators whose member
type width differs raise `PackedUnionWidthMismatch` once per member (the
`issued` flag is also pre-set when the member type was not integral). -/
def packedUnionDecls (ty : Ty) :
    Nat → Nat → Bool → List Ty → List DiagCode → Nat × Bool × List Ty × List DiagCode
  | 0, bw, issued, fs, ds => (bw, issued, fs, ds)
  | n + 1, bw, issued, fs, ds =>
    let fs := fs ++ [ty]
    if bw = 0 then packedUnionDecls ty n ty.getBitWidth issued fs ds
    else if ty.getBitWidth ≠ bw && !issued then
      packedUnionDecls ty n bw true fs (ds ++ [DiagCode.PackedUnionWidthMismatch])
    else packedUnionDecls ty n bw issued fs ds

/-- One member iteration of `PackedUnionType::fromSyntax`. -/
def packedUnionStep (acc : PUAcc) (m : StructMemberSyntax) : PUAcc :=
  let fourState := acc.isFourState || m.ty.isFourState
  let issued := !m.ty.isIntegral && !m.ty.isError
  let diags :=
    if issued then acc.diags ++ [DiagCode.PackedMemberNotIntegral] else acc.diags
  let r := packedUnionDecls m.ty m.declCount acc.bitWidth issued acc.fields diags
  ⟨r.1, fourState, r.2.2.1, r.2.2.2⟩

/-- `PackedUnionType::fromSyntax` (again without the trailing
packed-dimension wrapping): members are scanned in declaration order; a
zero total width produces the error type, otherwise a fresh packed union
whose width is the established common width. -/
def PackedUnionType.fromSyntax (uid : Nat) (members : List StructMemberSyntax)
    (isSigned : Bool) : PackedAggregateResult :=
  let acc := members.foldl packedUnionStep ⟨0, false, [], []⟩
  if acc.bitWidth = 0 then ⟨Ty.errorT, acc.fields.map (fun t => (t, 0)), acc.diags⟩
  else ⟨Ty.packedUnion uid acc.bitWidth isSigned acc.isFourState,
        acc.fields.map (fun t => (t, 0)), acc.diags⟩

/-- Modelled from the spec: `SVInt`, the arbitrary-width four-state integer
of the numeric library (see the spec's glossary and section 4.5).  A value
is a bit-value mask `val` together with an unknown mask `unk` over `width`
bits: a bit with its `unk` bit clear is the known 0/1 given by `val`; a bit
with its `unk` bit set is X when the `val` bit is 0 and Z when it is 1.
`signed` records the signedness flag. -/
structure SVInt where
  width : Nat
  signed : Bool
  val : Nat
  unk : Nat
deriving DecidableEq, Repr

/-- `SVInt::hasUnknown`: any X or Z bit present. -/
def SVInt.hasUnknown (a : SVInt) : Bool := a.unk ≠ 0

/-- The `SVInt(bitwidth, value, isSigned)` constructor for known values. -/
def SVInt.ofNat (width : Nat) (value : Nat) (signed : Bool) : SVInt :=
  ⟨width, signed, value % 2 ^ width, 0⟩

/-- A zero value followed by `setAllOnes()`: every bit a known 1. -/
def SVInt.allOnes (width : Nat) (signed : Bool) : SVInt :=
  ⟨width, signed, 2 ^ width - 1, 0⟩

/-- `SVInt::createFillX`: every bit X. -/
def SVInt.fillX (width : Nat) (signed : Bool) : SVInt :=
  ⟨width, signed, 0, 2 ^ width - 1⟩

/-- Modelled from the spec: four-state addition of one
(`previous + one` in `EnumType::fromSyntax`, where `one` is the known 1 of
the same width) - unknown operand bits make the whole result X, otherwise
ordinary wrap-around addition. -/
def SVInt.plusOne (a : SVInt) : SVInt :=
  if a.hasUnknown then SVInt.fillX a.width a.signed
  else ⟨a.width, a.signed, (a.val + 1) % 2 ^ a.width, 0⟩

/-- Modelled from the spec: the boolean reading of `SVInt::operator==`
(logical equality yields a known true only when both operands are fully
known and have equal values; the widths coincide at every use site
embedded here, so no extension step is modelled). -/
def SVInt.eqKnownB (a b : SVInt) : Bool :=
  !a.hasUnknown && !b.hasUnknown && a.width == b.width && a.val == b.val

/-- Exact representation equality, the sense in which the `usedValues`
map of `EnumType::fromSyntax` identifies already-used enumerand bit
patterns. -/
def SVInt.sameBits (a b : SVInt) : Bool :=
  a.width == b.width && a.val == b.val && a.unk == b.unk

/-- One enumerand declarator as consumed by the numbering logic of
`EnumType::fromSyntax`: either it carries an `= expr` initializer - whose
`getConstantValue()` result is `some v`, or `none` when constant evaluation
failed - or it has no initializer. -/
inductive EnumMemberSyntax where
  | withInit (cv : Option SVInt)
  | noInit
deriving DecidableEq, Repr

/-- Numbering state of `EnumType::fromSyntax`: the `first` flag, the
`previous` value, the `usedValues` set (as the list of inserted values),
the diagnostics issued so far and the per-enumerand assigned values (in
declaration order; `none` when the enumerand received no value). -/
structure EnumNumState where
  first : Bool
  previous : SVInt
  used : List SVInt
  diags : List DiagCode
  values : List (Option SVInt)
deriving DecidableEq, Repr

/-- The `checkValue` lambda of `EnumType::fromSyntax`: inserting an
already-present value diagnoses `EnumValueDuplicate` and reports failure,
otherwise the value is recorded as used. -/
def enumCheckValue (st : EnumNumState) (v : SVInt) : Bool × EnumNumState :=
  if st.used.any (fun u => u.sameBits v) then
    (false, { st with diags := st.diags ++ [DiagCode.EnumValueDuplicate] })
  else
    (true, { st with used := st.used ++ [v] })

/-- The `setInitializer` lambda of `EnumType::fromSyntax`: when the
initializer's constant value is available the enumerand keeps it (its
`getValue()` reads the initializer constant), `first` is cleared,
`previous` becomes the value and `checkValue` tests for duplicates; when
constant evaluation failed nothing changes. -/
def enumSetInit (st : EnumNumState) (cv : Option SVInt) : EnumNumState :=
  match cv with
  | none => { st with values := st.values ++ [none] }
  | some v =>
    let st := { st with
      first := false
      previous := v
      values := st.values ++ [some v] }
    (enumCheckValue st v).2

/-- The `inferValue` lambda of `EnumType::fromSyntax`: the first enumerand
(no prior value established) gets the known zero of the base type;
otherwise a `previous` with unknown bits diagnoses `EnumIncrementUnknown`
and a `previous` equal to the all-ones pattern diagnoses
`EnumValueOverflow`, in both cases assigning no value and leaving
`previous` unchanged; otherwise the candidate is `previous + one`.  A
candidate that fails the duplicate check is also not assigned. -/
def enumInferValue (width : Nat) (signed : Bool) (allOnes : SVInt)
    (st : EnumNumState) : EnumNumState :=
  if st.first then
    let value := SVInt.ofNat width 0 signed
    let st := { st with first := false }
    let p := enumCheckValue st value
    if p.1 then { p.2 with values := p.2.values ++ [some value], previous := value }
    else { p.2 with values := p.2.values ++ [none] }
  else if st.previous.hasUnknown then
    { st with diags := st.diags ++ [DiagCode.EnumIncrementUnknown],
              values := st.values ++ [none] }
  else if st.previous.eqKnownB allOnes then
    { st with diags := st.diags ++ [DiagCode.EnumValueOverflow],
              values := st.values ++ [none] }
  else
    let value := st.previous.plusOne
    let p := enumCheckValue st value
    if p.1 then { p.2 with values := p.2.values ++ [some value], previous := value }
    else { p.2 with values := p.2.values ++ [none] }

/-- One enumerand of the member loop of `EnumType::fromSyntax` (the
non-range declarator path; range-form enumerands reuse the same two lambdas
for each generated element). -/
def enumStep (width : Nat) (signed : Bool) (allOnes : SVInt)
    (st : EnumNumState) (m : EnumMemberSyntax) : EnumNumState :=
  match m with
  | .withInit cv => enumSetInit st cv
  | .noInit => enumInferValue width signed allOnes st

/-- The numbering pass of `EnumType::fromSyntax` over a list of enumerand
declarators.  `width` and `signed` are bit width and signedness of the
(canonical) enum base type, from which the loop's `allOnes` and `one`
constants are built. -/
def enumNumber (width : Nat) (signed : Bool)
    (members : List EnumMemberSyntax) : EnumNumState :=
  members.foldl (enumStep width signed (SVInt.allOnes width signed))
    ⟨true, SVInt.ofNat 1 0 false, [], [], []⟩

/-- A data-type syntax node reference as held by a `DeclaredType` record:
an abstract identity plus whether its kind is `ImplicitType`. -/
structure TypeSyntaxRef where
  id : Nat
  isImplicitKind : Bool
deriving DecidableEq, Repr

/-- The `DeclaredType` record of DeclaredType.h/.cpp, restricted to the
state its resolution logic reads: the optional type syntax, optional
dimension syntax, optional initializer syntax, the `InferImplicit` and
`ForceSigned` flags, and the re-entry guard `evaluating`.  The memoized
`type`/`initializer` fields are represented by `typeResolved` (whether
`type` is already non-null when `resolveAt` runs). -/
structure DeclaredTypeRec where
  typeSyntax : Option TypeSyntaxRef
  hasDimensions : Bool
  initializerSyntax : Option Nat
  inferImplicit : Bool
  forceSigned : Bool
  evaluating : Bool
  typeResolved : Bool
deriving DecidableEq, Repr

/-- Outcome of `DeclaredType::resolveType`: either the record's `type`
field is set to a type (with the diagnostics issued while resolving), or
the `ASSERT(!evaluating)` guard fails, terminating resolution by assertion
failure. -/
inductive ResolveOutcome where
  | resolved (ty : Ty) (diags : List DiagCode)
  | assertionFailure
deriving DecidableEq, Repr

/-- Whether an outcome is what the specification describes for re-entry: a
diagnostic is raised and the resolution yields the error type. -/
def ResolveOutcome.raisesDiagAndYieldsError : ResolveOutcome → Bool
  | .resolved t ds => t == Ty.errorT && !ds.isEmpty
  | .assertionFailure => false

/-- `DeclaredType::resolveType` (DeclaredType.cpp).  External collaborators
appear as oracles: `bindInit` is `Expression::bind` on the initializer
syntax (returning the bound expression's type), `getType` is
`compilation.getType` on the type syntax with the force-signed flag, and
`wrapDims` applies the unpacked dimensions.  Control flow follows the
source: a missing type syntax yields the error type before anything else;
then `ASSERT(!evaluating)` - re-entry is an assertion failure, with no
diagnostic issued and no type installed; then either the implicit-type
inference path (adopting the bound initializer's type, or the error type
when there is no initializer) or the ordinary type resolution path with
optional dimension wrapping. -/
def DeclaredType.resolveType (r : DeclaredTypeRec)
    (bindInit : Nat → Ty × List DiagCode)
    (getType : TypeSyntaxRef → Bool → Ty × List DiagCode)
    (wrapDims : Ty → Ty × List DiagCode) : ResolveOutcome :=
  match r.typeSyntax with
  | none => .resolved Ty.errorT []
  | some ts =>
    if r.evaluating then .assertionFailure
    else if ts.isImplicitKind && r.inferImplicit then
      match r.initializerSyntax with
      | none => .resolved Ty.errorT []
      | some ini =>
        let (t, ds) := bindInit ini
        .resolved t ds
    else
      let (t, ds) := getType ts r.forceSigned
      if r.hasDimensions then
        let (t2, ds2) := wrapDims t
        .resolved t2 (ds ++ ds2)
      else .resolved t ds

/-- Outcome of `DeclaredType::resolveAt`: no initializer syntax means
nothing to do; otherwise either the initializer is bound (against the
declared type, or the enum base type in the enum-initializer special case)
or the `ASSERT(!evaluating)` guard fails. -/
inductive ResolveAtOutcome where
  | skipped
  | bound (initType : Ty) (diags : List DiagCode)
  | assertionFailure
deriving DecidableEq, Repr

/-- `DeclaredType::resolveAt` (DeclaredType.cpp).  When the type is not yet
resolved the source first runs `resolveType` (whose own guard fails on the
same re-entered record, since `evaluating` is unchanged at that point) and
returns early if that already bound the initializer; afterwards the
function's own `ASSERT(!evaluating)` runs.  Either way, entering with
`evaluating` set is an assertion failure, and entering with it clear binds
the initializer - modelled by the oracle `bindInit`. -/
def DeclaredType.resolveAt (r : DeclaredTypeRec)
    (bindInit : Nat → Ty × List DiagCode) : ResolveAtOutcome :=
  match r.initializerSyntax with
  | none => .skipped
  | some ini =>
    if r.evaluating then .assertionFailure
    else
      let (t, ds) := bindInit ini
      .bound t ds

/-- Four-state scalar truth values. -/
inductive Logic where
  | zero
  | one
  | unknown
deriving DecidableEq, Repr

/-- The mask of bits of `a` that are known ones. -/
def SVInt.knownOnes (a : SVInt) : Nat := a.val &&& ((2 ^ a.width - 1) ^^^ a.unk)

/-- Modelled from the spec: the `logic_t` reading of an `SVInt` (its
or-reduction) - a known 1 if any bit is a known one, unknown if there is
no known one but some X/Z bit, a known 0 otherwise. -/
def SVInt.toLogic (a : SVInt) : Logic :=
  if a.knownOnes ≠ 0 then Logic.one
  else if a.unk ≠ 0 then Logic.unknown
  else Logic.zero

/-- Four-state logical negation. -/
def Logic.notL : Logic → Logic
  | .zero => .one
  | .one => .zero
  | .unknown => .unknown

/-- Four-state logical conjunction. -/
def Logic.andL : Logic → Logic → Logic
  | .zero, _ => .zero
  | _, .zero => .zero
  | .one, .one => .one
  | _, _ => .unknown

/-- Four-state logical disjunction. -/
def Logic.orL : Logic → Logic → Logic
  | .one, _ => .one
  | _, .one => .one
  | .zero, .zero => .zero
  | _, _ => .unknown

/-- `SVInt::logicalImpl`: `!a || b`. -/
def Logic.implL (a b : Logic) : Logic := a.notL.orL b

/-- `SVInt::logicalEquiv`: `(!a || b) && (!b || a)`. -/
def Logic.equivL (a b : Logic) : Logic := (a.notL.orL b).andL (b.notL.orL a)

/-- A single-bit `SVInt` holding the given four-state value. -/
def SVInt.ofLogic : Logic → SVInt
  | .zero => ⟨1, false, 0, 0⟩
  | .one => ⟨1, false, 1, 0⟩
  | .unknown => ⟨1, false, 0, 1⟩

/-- The 1-bit `SVInt(true)` / `SVInt(false)` results of the evaluator. -/
def SVInt.ofBool (b : Bool) : SVInt := SVInt.ofLogic (if b then Logic.one else Logic.zero)

/-- Modelled from the spec: four-state addition with unknown propagation
(section 4.5); any unknown operand bit makes the result all-X. -/
def SVInt.add (a b : SVInt) : SVInt :=
  let w := max a.width b.width
  if a.hasUnknown || b.hasUnknown then SVInt.fillX w (a.signed && b.signed)
  else ⟨w, a.signed && b.signed, (a.val + b.val) % 2 ^ w, 0⟩

/-- Modelled from the spec: four-state negation. -/
def SVInt.negFs (a : SVInt) : SVInt :=
  if a.hasUnknown then SVInt.fillX a.width a.signed
  else ⟨a.width, a.signed, (2 ^ a.width - a.val) % 2 ^ a.width, 0⟩

/-- `SVInt(!v)`: logical negation of the or-reduction. -/
def SVInt.logicalNotSV (a : SVInt) : SVInt := SVInt.ofLogic a.toLogic.notL

/-- The signed integer a fully known `SVInt` represents. -/
def SVInt.toIntVal (a : SVInt) : Int :=
  if a.signed && a.width > 0 && a.val.testBit (a.width - 1) then (a.val : Int) - 2 ^ a.width
  else (a.val : Int)

/-- Modelled from the spec: `SVInt::as<int32_t>` - `none` when the value
has unknown bits or does not fit a 32-bit signed integer. -/
def SVInt.asInt32 (a : SVInt) : Option Int :=
  if a.hasUnknown then none
  else
    let n := a.toIntVal
    if -(2 ^ 31) ≤ n && n < 2 ^ 31 then some n else none

/-- The (value, unknown) pair of bit `i`; bits outside the value read X,
as `SVInt::slice` fills out-of-range bits with X. -/
def SVInt.bitVal (a : SVInt) (i : Int) : Bool × Bool :=
  if 0 ≤ i && i < (a.width : Int) then (a.val.testBit i.toNat, a.unk.testBit i.toNat)
  else (false, true)

/-- Modelled from the spec: `SVInt::slice(msb, lsb)` - extract the bits
from `lsb` to `msb` inclusive. -/
def SVInt.slice (a : SVInt) (msb lsb : Int) : SVInt :=
  let w := (msb - lsb + 1).toNat
  let masks := (List.range w).foldl
    (fun acc (i : Nat) =>
      let p := a.bitVal (lsb + (i : Int))
      (acc.1 + (if p.1 then 2 ^ i else 0), acc.2 + (if p.2 then 2 ^ i else 0)))
    ((0 : Nat), (0 : Nat))
  ⟨w, false, masks.1, masks.2⟩

/-- Shallow embedding of `ConstantValue` restricted to the forms this
fragment evaluates: the invalid (null) value, four-state integers, strings
and unpacked element sequences.  Floating values are outside the fragment. -/
inductive CV where
  | invalid
  | integer (v : SVInt)
  | str (s : String)
  | elems (xs : List CV)

/-- The null/bad check `if (!cv)` on a `ConstantValue`. -/
def CV.isInvalid : CV → Bool
  | .invalid => true
  | _ => false

/-- Modelled from the spec: `ConstantValue::isTrue` - a known-one
or-reduction for integers, false for the other forms of the fragment. -/
def CV.isTrue : CV → Bool
  | .integer v => v.toLogic == Logic.one
  | _ => false

/-- Modelled from the spec: `ConstantValue::isFalse` - a known-zero
or-reduction for integers, false for the other forms of the fragment. -/
def CV.isFalse : CV → Bool
  | .integer v => v.toLogic == Logic.zero
  | _ => false

/-- `cv.integer()` - the use sites embedded here only apply it to integer
values (guaranteed by binding); the default leaf is unreachable in
well-typed runs. -/
def CV.integerVal : CV → SVInt
  | .integer v => v
  | _ => SVInt.ofNat 1 0 false

/-- `cv.str()`. -/
def CV.strVal : CV → String
  | .str s => s
  | _ => ""

/-- `cv.elements()`. -/
def CV.elemsVal : CV → List CV
  | .elems xs => xs
  | _ => []

/-- Modelled from the spec: `ConstantValue::getSlice` - slice of an
integer, subsequence of an unpacked array, substring of a string. -/
def CV.getSlice (cv : CV) (upper lower : Int) : CV :=
  match cv with
  | .integer v => .integer (v.slice upper lower)
  | .elems xs => .elems ((xs.drop lower.toNat).take (upper - lower + 1).toNat)
  | .str s => .str (String.mk ((s.toList.drop lower.toNat).take (upper - lower + 1).toNat))
  | .invalid => .invalid

/-- Binary operators of the evaluator fragment: one representative
arithmetic operator plus the four binary logical operators (the
short-circuit behaviour under verification distinguishes exactly
`&&`, `||` and `->`, see `isShortCircuitOp`). -/
inductive BinOp where
  | add
  | logicalAnd
  | logicalOr
  | logicalImplication
  | logicalEquivalence
deriving DecidableEq, Repr

/-- `isShortCircuitOp` (Expressions_eval.cpp): logical and, logical or and
logical implication; logical equivalence is not short-circuiting. -/
def isShortCircuitOp : BinOp → Bool
  | .logicalAnd => true
  | .logicalOr => true
  | .logicalImplication => true
  | _ => false

/-- `evalBinaryOperator` (Expressions_eval.cpp) on the fragment: invalid
operands yield the invalid value; integer operands dispatch on the
operator.  The non-integer combinations the source handles (floats,
strings, unpacked arrays) are outside the fragment and map to invalid. -/
def evalBinaryOperator (op : BinOp) (cvl cvr : CV) : CV :=
  if cvl.isInvalid || cvr.isInvalid then CV.invalid
  else
    match cvl, cvr with
    | .integer l, .integer r =>
      match op with
      | .add => .integer (l.add r)
      | .logicalAnd => .integer (SVInt.ofLogic (l.toLogic.andL r.toLogic))
      | .logicalOr => .integer (SVInt.ofLogic (l.toLogic.orL r.toLogic))
      | .logicalImplication => .integer (SVInt.ofLogic (l.toLogic.implL r.toLogic))
      | .logicalEquivalence => .integer (SVInt.ofLogic (l.toLogic.equivL r.toLogic))
    | _, _ => CV.invalid

/-- Symbol kinds distinguished by `NamedValueExpression::evalImpl`. -/
inductive SymKind where
  | parameter
  | enumValue
  | variable
deriving DecidableEq, Repr

/-- The slice of a symbol that `NamedValueExpression::evalImpl` and
`verifyConstantImpl` consult: an identity for local-variable lookup, the
kind, whether the parent scope is a `Definition` symbol, the stored value
(`ParameterSymbol::getValue` / `EnumValueSymbol::getValue`), the
hierarchical-reference flag, and the two facts the constant-function
checks establish about the symbol relative to the active frame. -/
structure SymbolInfo where
  uid : Nat
  kind : SymKind
  parentIsDefinition : Bool
  value : CV
  isHierarchical : Bool
  localToSubroutine : Bool
  declaredBeforeCall : Bool

/-- The slice of `EvalContext` the fragment reads: the script-eval flag,
whether the top frame belongs to a subroutine, and the local-variable
table. -/
structure EvalContext where
  scriptEval : Bool
  topFrameHasSubroutine : Bool
  locals : List (Nat × CV)

/-- `EvalContext::findLocal`. -/
def EvalContext.findLocal (ctx : EvalContext) (uid : Nat) : Option CV :=
  (ctx.locals.find? (fun p => p.1 == uid)).map (fun p => p.2)

/-- `NamedValueExpression::verifyConstantImpl`: script evaluation skips all
checks; hierarchical names are diagnosed; outside any subroutine frame the
check passes; inside one, non-parameters must be local to the subroutine
and parameters must be declared before the call site. -/
def NamedValue.verifyConstant (sym : SymbolInfo) (ctx : EvalContext) :
    Bool × List DiagCode :=
  if ctx.scriptEval then (true, [])
  else if sym.isHierarchical then (false, [DiagCode.NoteHierarchicalNameInCE])
  else if !ctx.topFrameHasSubroutine then (true, [])
  else if sym.kind ≠ SymKind.parameter then
    if sym.localToSubroutine then (true, [])
    else (false, [DiagCode.NoteFunctionIdentifiersMustBeLocal, DiagCode.NoteDeclarationHere])
  else if sym.declaredBeforeCall then (true, [])
  else (false, [DiagCode.NoteParamUsedInCEBeforeDecl, DiagCode.NoteDeclarationHere])

/-- `NamedValueExpression::evalImpl`: failed verification yields invalid
with the verification diagnostics; a parameter whose parent scope is a
`Definition` symbol yields invalid with no diagnostic (its value is not
real, the definition is never a real instance); parameters and enum values
return their stored value; anything else is looked up in the frame's
locals, and a miss diagnoses a non-constant variable reference. -/
def NamedValue.evalImpl (sym : SymbolInfo) (ctx : EvalContext) : CV × List DiagCode :=
  let p := NamedValue.verifyConstant sym ctx
  if !p.1 then (CV.invalid, p.2)
  else
    match sym.kind with
    | .parameter =>
      if sym.parentIsDefinition then (CV.invalid, p.2)
      else (sym.value, p.2)
    | .enumValue => (sym.value, p.2)
    | .variable =>
      match ctx.findLocal sym.uid with
      | some v => (v, p.2)
      | none =>
        (CV.invalid,
         p.2 ++ [DiagCode.NoteNonConstVariable, DiagCode.NoteDeclarationHere])

/-- Result of `checkArrayIndex`: a successfully translated index, or the
diagnostic recorded by the failure path. -/
inductive IndexCheck where
  | ok (translated : Int)
  | err (d : DiagCode)
deriving DecidableEq, Repr

/-- `checkArrayIndex` (Expressions_eval.cpp): convert the selector to an
`int32`; for strings a representable in-bounds index is returned as-is and
an invalid one diagnoses `NoteStringIndexInvalid`; for everything else an
unrepresentable or out-of-range index diagnoses `NoteArrayIndexInvalid`,
and a good index is translated through the array range. -/
def checkArrayIndex (ty : Ty) (cs : CV) (str : String) : IndexCheck :=
  let index := cs.integerVal.asInt32
  match index with
  | some i =>
    if ty.isString then
      if i < 0 || (str.length : Int) ≤ i then .err DiagCode.NoteStringIndexInvalid
      else .ok i
    else
      let range := ty.getArrayRange
      if !range.containsPoint i then .err DiagCode.NoteArrayIndexInvalid
      else .ok (range.translateIndex i)
  | none => .err DiagCode.NoteArrayIndexInvalid

/-- The three range-selection kinds. -/
inductive RangeSelKind where
  | simple
  | indexedUp
  | indexedDown
deriving DecidableEq, Repr

/-- Modelled from the spec: `getIndexedRange` of the binder (section 4.4:
indexed `[a+:n]` and `[a-:n]` compute the concrete range using the base's
endianness). -/
def RangeSelect.getIndexedRange (up : Bool) (l r : Int) (littleEndian : Bool) :
    ConstantRange :=
  let count := r - 1
  let result : ConstantRange := if up then ⟨l + count, l⟩ else ⟨l, l - count⟩
  if !littleEndian then result.reverse else result

/-- `RangeSelectExpression::getRange` (Expressions_eval.cpp): a simple
select reuses the select's own type range; an indexed select whose left
bound is not representable as `int32` diagnoses `NoteArrayIndexInvalid`
(the right bound of an indexed select is a bind-time constant, so the
source dereferences it unconditionally); a resulting range not contained in
the value's range diagnoses `NotePartSelectInvalid`; otherwise the range is
normalized to little-endian, translated, and scaled by the element width
for packed arrays. -/
def RangeSelect.getRange (selectionKind : RangeSelKind) (valueType exprType : Ty)
    (cl cr : CV) : Except DiagCode ConstantRange :=
  let valueRange := valueType.getArrayRange
  let step : Except DiagCode ConstantRange :=
    match selectionKind with
    | .simple => .ok exprType.getArrayRange
    | .indexedUp =>
      match cl.integerVal.asInt32 with
      | none => .error DiagCode.NoteArrayIndexInvalid
      | some l =>
        let r := (cr.integerVal.asInt32).getD 0
        .ok (RangeSelect.getIndexedRange true l r valueRange.isLittleEndian)
    | .indexedDown =>
      match cl.integerVal.asInt32 with
      | none => .error DiagCode.NoteArrayIndexInvalid
      | some l =>
        let r := (cr.integerVal.asInt32).getD 0
        .ok (RangeSelect.getIndexedRange false l r valueRange.isLittleEndian)
  match step with
  | .error d => .error d
  | .ok result =>
    if !valueRange.containsPoint result.left || !valueRange.containsPoint result.right then
      .error DiagCode.NotePartSelectInvalid
    else
      let result := if !result.isLittleEndian then result.reverse else result
      let result : ConstantRange :=
        ⟨valueRange.translateIndex result.left, valueRange.translateIndex result.right⟩
      if !valueType.isPackedArray then .ok result
      else
        let width : Int :=
          (match valueType.canonical with
           | .packedArray elem _ => elem.getBitWidth
           | _ => 0 : Nat)
        .ok ⟨result.left * width + (width - 1), result.right * width⟩

/-- Unary operators of the evaluator fragment (non-lvalue forms). -/
inductive UnOp where
  | minus
  | logicalNot
deriving DecidableEq, Repr

/-- Bound expression nodes of the evaluator fragment.  Every constructor
carries the node's optional precomputed constant (`Expression::constant`,
set when binding managed to evaluate the expression against a pure
context).  Select nodes also carry the type of the value operand and the
select's own type, the two type pointers their evaluation reads. -/
inductive Expr where
  | intLit (constant : Option CV) (v : SVInt)
  | named (constant : Option CV) (sym : SymbolInfo)
  | unary (constant : Option CV) (op : UnOp) (operand : Expr)
  | binary (constant : Option CV) (op : BinOp) (lhs rhs : Expr)
  | elemSelect (constant : Option CV) (valueType exprType : Ty) (value selector : Expr)
  | rangeSelect (constant : Option CV) (selectionKind : RangeSelKind)
      (valueType exprType : Ty) (value leftE rightE : Expr)
  | invalidExpr

/-- The `constant` field of a node (`none` for the invalid expression). -/
def Expr.constant : Expr → Option CV
  | .intLit c _ => c
  | .named c _ => c
  | .unary c _ _ => c
  | .binary c _ _ _ => c
  | .elemSelect c _ _ _ _ => c
  | .rangeSelect c _ _ _ _ _ _ => c
  | .invalidExpr => none

/-- The memoized-constant check of `EvalVisitor::visit`: when the node's
`constant` is set that value is returned directly (no evaluation, no
diagnostics); otherwise the node's `evalImpl` runs. -/
def withMemo (c : Option CV) (k : Unit → CV × List DiagCode) : CV × List DiagCode :=
  match c with
  | some v => (v, [])
  | none => k ()

/-- `Expression::eval` over the fragment: the visitor dispatch of
Expressions_eval.cpp.  The invalid expression returns the invalid value
(`visitInvalid`); every other node first consults its memoized constant
(`EvalVisitor`), then runs the corresponding `evalImpl`.  Evaluation
returns the produced value together with the list of diagnostics recorded
in the context, in order of emission. -/
def Expr.eval : Expr → EvalContext → CV × List DiagCode
  | .invalidExpr, _ => (CV.invalid, [])
  | .intLit c v, _ => withMemo c fun _ => (CV.integer v, [])
  | .named c sym, ctx => withMemo c fun _ => NamedValue.evalImpl sym ctx
  | .unary c op a, ctx => withMemo c fun _ =>
      let p := Expr.eval a ctx
      if p.1.isInvalid then (CV.invalid, p.2)
      else
        match p.1 with
        | .integer v =>
          match op with
          | .minus => (CV.integer v.negFs, p.2)
          | .logicalNot => (CV.integer v.logicalNotSV, p.2)
        | _ => (CV.invalid, p.2)
  | .binary c op l r, ctx => withMemo c fun _ =>
      let pl := Expr.eval l ctx
      if pl.1.isInvalid then (CV.invalid, pl.2)
      else
        let determined : Option CV :=
          match op with
          | .logicalOr => if pl.1.isTrue then some (CV.integer (SVInt.ofBool true)) else none
          | .logicalAnd => if pl.1.isFalse then some (CV.integer (SVInt.ofBool false)) else none
          | .logicalImplication =>
            if pl.1.isFalse then some (CV.integer (SVInt.ofBool true)) else none
          | _ => none
        match determined with
        | some v => (v, pl.2)
        | none =>
          let pr := Expr.eval r ctx
          if pr.1.isInvalid then (CV.invalid, pl.2 ++ pr.2)
          else (evalBinaryOperator op pl.1 pr.1, pl.2 ++ pr.2)
  | .elemSelect c valueType exprType v s, ctx => withMemo c fun _ =>
      let pv := Expr.eval v ctx
      let ps := Expr.eval s ctx
      if pv.1.isInvalid || ps.1.isInvalid then (CV.invalid, pv.2 ++ ps.2)
      else
        let str := if valueType.isString then pv.1.strVal else ""
        match checkArrayIndex valueType ps.1 str with
        | .err d => (CV.invalid, pv.2 ++ ps.2 ++ [d])
        | .ok index =>
          if valueType.isUnpackedArray then
            (pv.1.elemsVal.getD index.toNat CV.invalid, pv.2 ++ ps.2)
          else if valueType.isString then (pv.1.getSlice index index, pv.2 ++ ps.2)
          else
            let width : Int := (exprType.getBitWidth : Int)
            let index := index * width
            (CV.integer (pv.1.integerVal.slice (index + width - 1) index), pv.2 ++ ps.2)
  | .rangeSelect c selectionKind valueType exprType v le re, ctx => withMemo c fun _ =>
      let pv := Expr.eval v ctx
      let pl := Expr.eval le ctx
      let pr := Expr.eval re ctx
      if pv.1.isInvalid || pl.1.isInvalid || pr.1.isInvalid then
        (CV.invalid, pv.2 ++ pl.2 ++ pr.2)
      else
        match RangeSelect.getRange selectionKind valueType exprType pl.1 pr.1 with
        | .error d => (CV.invalid, pv.2 ++ pl.2 ++ pr.2 ++ [d])
        | .ok range => (pv.1.getSlice range.upper range.lower, pv.2 ++ pl.2 ++ pr.2)

/-- Result of name lookup for an implicit named port connection: either the
name resolved (with the type of the bound named-value expression and
whether that expression is bad), or it did not. -/
inductive LookupOutcome where
  | notFound
  | found (exprType : Ty) (bad : Bool)
deriving DecidableEq, Repr

/-- The connection a port ends up with. -/
inductive PortConnKind where
  | defaultValueConn
  | exprConn (target : Ty)
deriving DecidableEq, Repr

/-- `PortConnectionBuilder::implicitNamedPort` (PortBuilder.h): look the
port's name up in the instantiating scope.  On a miss, a wildcard
connection may fall back to the port's default value, otherwise
`ImplicitNamedPortNotFound` is diagnosed.  On a hit with a usable port
type and expression, the connection is made only when the resolved
expression's type is equivalent to the port type; otherwise
`ImplicitNamedPortTypeMismatch` is diagnosed and the port stays
unconnected. -/
def PortConnectionBuilder.implicitNamedPort (portType : Ty) (hasDefault : Bool)
    (isWildcard : Bool) (lookup : LookupOutcome) :
    Option PortConnKind × List DiagCode :=
  match lookup with
  | .notFound =>
    if isWildcard && hasDefault then (some PortConnKind.defaultValueConn, [])
    else (none, [DiagCode.ImplicitNamedPortNotFound])
  | .found exprType bad =>
    if portType.isError then (none, [])
    else if bad then (none, [])
    else if !(exprType.isEquivalent portType) then
      (none, [DiagCode.ImplicitNamedPortTypeMismatch])
    else (some (PortConnKind.exprConn portType), [])

/-! Theorems.  Each claim of the specification review is settled by one
theorem below; shared helper lemmas precede them. -/

/-- A value whose truth is known cannot be the invalid value. -/
theorem CV.isTrue_not_invalid (cv : CV) (h : cv.isTrue = true) : cv.isInvalid = false := by
  cases cv <;> simp_all [CV.isTrue, CV.isInvalid]

/-- A value whose falsity is known cannot be the invalid value. -/
theorem CV.isFalse_not_invalid (cv : CV) (h : cv.isFalse = true) : cv.isInvalid = false := by
  cases cv <;> simp_all [CV.isFalse, CV.isInvalid]

/-- C5: canonical resolution is idempotent - for every type `T`,
`getCanonicalType(getCanonicalType(T))` is the same type as
`getCanonicalType(T)`; equivalently, the canonical type is never itself a
type alias (alias chains in the inductive representation are finite, i.e.
acyclic). -/
theorem canonicalIdempotent (T : Ty) :
    T.canonical.canonical = T.canonical ∧ T.canonical.isAliasKind = false := by
  induction T with
  | typeAlias u t ih => simpa [Ty.canonical] using ih
  | _ => simp [Ty.canonical, Ty.isAliasKind]

/-- C1: the type relation lattice - matching implies equivalent, equivalent
implies assignment compatible, and assignment compatible implies cast
compatible, for every pair of types. -/
theorem typeRelationLattice (A B : Ty) :
    (A.isMatching B = true → A.isEquivalent B = true) ∧
    (A.isEquivalent B = true → A.isAssignmentCompatible B = true) ∧
    (A.isAssignmentCompatible B = true → A.isCastCompatible B = true) := by
  refine ⟨?_, ?_, ?_⟩
  · intro h
    unfold Ty.isMatching at h
    unfold Ty.isEquivalent
    unfold eCore
    simp [h]
  · intro h
    unfold Ty.isEquivalent at h
    unfold Ty.isAssignmentCompatible aCore
    simp [h]
  · intro h
    unfold Ty.isAssignmentCompatible at h
    unfold Ty.isCastCompatible cCore
    simp [h]

/-- Witness for C1 at concrete types: `logic` and `reg` are matching, hence
equivalent, assignment compatible and cast compatible. -/
theorem typeRelationLattice_witness :
    (Ty.scalar ScalarKind.logic false).isEquivalent (Ty.scalar ScalarKind.reg false) = true ∧
    (Ty.scalar ScalarKind.logic false).isAssignmentCompatible (Ty.scalar ScalarKind.reg false) = true ∧
    (Ty.scalar ScalarKind.logic false).isCastCompatible (Ty.scalar ScalarKind.reg false) = true := by
  have hm : (Ty.scalar ScalarKind.logic false).isMatching (Ty.scalar ScalarKind.reg false) = true := by
    simp [Ty.isMatching, Ty.canonical]
    unfold mCore
    simp [Ty.isScalar, Ty.canonical]
  have h := typeRelationLattice (Ty.scalar ScalarKind.logic false) (Ty.scalar ScalarKind.reg false)
  exact ⟨h.1 hm, h.2.1 (h.1 hm), h.2.2 (h.2.1 (h.1 hm))⟩

/-- A re-entered declared-type record: type syntax present, resolution
currently in progress (`evaluating` set). -/
def reentrantRec : DeclaredTypeRec :=
  { typeSyntax := some ⟨0, false⟩
    hasDimensions := false
    initializerSyntax := some 0
    inferImplicit := false
    forceSigned := false
    evaluating := true
    typeResolved := true }

/-- A concrete resolution oracle for the counterexample. -/
def constOracle1 : Nat → Ty × List DiagCode := fun _ => (Ty.errorT, [])

/-- A concrete type-resolution oracle for the counterexample. -/
def constOracle2 : TypeSyntaxRef → Bool → Ty × List DiagCode := fun _ _ => (Ty.errorT, [])

/-- A concrete dimension-wrapping oracle for the counterexample. -/
def constOracle3 : Ty → Ty × List DiagCode := fun t => (t, [])

/-- C2, counterexample: re-entering `DeclaredType::resolveType` on a record
whose `evaluating` flag is set does NOT raise a diagnostic and yield the
error type - the `ASSERT(!evaluating)` guard fails instead (an assertion
failure, no diagnostic, no type installed). -/
theorem declaredTypeReentry_counterexample :
    DeclaredType.resolveType reentrantRec constOracle1 constOracle2 constOracle3
      = ResolveOutcome.assertionFailure ∧
    (DeclaredType.resolveType reentrantRec constOracle1 constOracle2
        constOracle3).raisesDiagAndYieldsError = false := by
  exact ⟨rfl, rfl⟩

/-- C2, amended: re-entering the resolution of a `DeclaredType` (the
per-record `evaluating` flag is set) makes `resolveType` - and likewise
`resolveAt` - fail the `ASSERT(!evaluating)` guard immediately: resolution
does not recurse unboundedly, but the guard raises no diagnostic and yields
no error type; it aborts by assertion failure. -/
theorem declaredTypeReentry_asserts (r : DeclaredTypeRec)
    (bindInit : Nat → Ty × List DiagCode)
    (getType : TypeSyntaxRef → Bool → Ty × List DiagCode)
    (wrapDims : Ty → Ty × List DiagCode)
    (hev : r.evaluating = true) :
    (r.typeSyntax.isSome = true →
      DeclaredType.resolveType r bindInit getType wrapDims
        = ResolveOutcome.assertionFailure) ∧
    (r.initializerSyntax.isSome = true →
      DeclaredType.resolveAt r bindInit = ResolveAtOutcome.assertionFailure) := by
  constructor
  · intro hts
    unfold DeclaredType.resolveType
    match h : r.typeSyntax with
    | none => rw [h] at hts; simp at hts
    | some ts => simp [hev]
  · intro hini
    unfold DeclaredType.resolveAt
    match h : r.initializerSyntax with
    | none => rw [h] at hini; simp at hini
    | some ini => simp [hev]

/-- Witness for the amended C2 at the concrete re-entered record. -/
theorem declaredTypeReentry_asserts_witness :
    DeclaredType.resolveType reentrantRec constOracle1 constOracle2 constOracle3
        = ResolveOutcome.assertionFailure ∧
    DeclaredType.resolveAt reentrantRec constOracle1
        = ResolveAtOutcome.assertionFailure := by
  have h := declaredTypeReentry_asserts reentrantRec constOracle1 constOracle2
    constOracle3 (by decide)
  exact ⟨h.1 (by decide), h.2 (by decide)⟩

/-- C9: a named reference to a parameter whose parent scope is a
`Definition` symbol constant-evaluates to no value - the invalid result,
with no diagnostic recorded - whereas a parameter cloned into a real
instance (parent not a definition) yields its stored value.  The context is
an ordinary constant-evaluation context (not a script evaluation, top
frame not a subroutine frame) and the reference is non-hierarchical. -/
theorem definitionParamNoValue (sym : SymbolInfo) (ctx : EvalContext)
    (hscript : ctx.scriptEval = false)
    (hframe : ctx.topFrameHasSubroutine = false)
    (hhier : sym.isHierarchical = false)
    (hkind : sym.kind = SymKind.parameter) :
    (sym.parentIsDefinition = true →
      Expr.eval (Expr.named none sym) ctx = (CV.invalid, [])) ∧
    (sym.parentIsDefinition = false →
      Expr.eval (Expr.named none sym) ctx = (sym.value, [])) := by
  constructor <;> intro hdef <;>
    simp [Expr.eval, withMemo, NamedValue.evalImpl, NamedValue.verifyConstant,
      hscript, hframe, hhier, hkind, hdef]

/-- A parameter symbol living directly inside a `Definition`, holding the
(unreal) value 9. -/
def defParamSym : SymbolInfo :=
  { uid := 7
    kind := SymKind.parameter
    parentIsDefinition := true
    value := CV.integer (SVInt.ofNat 32 9 true)
    isHierarchical := false
    localToSubroutine := false
    declaredBeforeCall := true }

/-- The same parameter cloned into an instance (parent no longer the
definition). -/
def instParamSym : SymbolInfo :=
  { defParamSym with parentIsDefinition := false }

/-- Witness for C9 at a concrete parameter and context. -/
theorem definitionParamNoValue_witness :
    Expr.eval (Expr.named none defParamSym) ⟨false, false, []⟩ = (CV.invalid, []) ∧
    Expr.eval (Expr.named none instParamSym) ⟨false, false, []⟩
      = (CV.integer (SVInt.ofNat 32 9 true), []) := by
  refine ⟨(definitionParamNoValue defParamSym ⟨false, false, []⟩ rfl rfl rfl rfl).1 rfl, ?_⟩
  exact (definitionParamNoValue instParamSym ⟨false, false, []⟩ rfl rfl rfl rfl).2 rfl

/-- C10: memoized-constant determinism - when a bound expression's
precomputed `constant` field is set, `Expression::eval` returns exactly the
stored value (recording no diagnostics) regardless of the supplied
context; consequently any two evaluations in any two contexts coincide. -/
theorem memoizedConstantDeterminism (e : Expr) (v : CV) (c1 c2 : EvalContext)
    (h : e.constant = some v) :
    Expr.eval e c1 = (v, []) ∧ Expr.eval e c1 = Expr.eval e c2 := by
  cases e <;> simp [Expr.constant] at h <;>
    simp [Expr.eval, withMemo, h]

/-- Witness for C10: a literal with a (deliberately different) memoized
constant evaluates to the memoized value in two different contexts. -/
theorem memoizedConstantDeterminism_witness :
    Expr.eval (Expr.intLit (some (CV.integer (SVInt.ofNat 8 3 false)))
        (SVInt.ofNat 8 200 false)) ⟨false, false, []⟩
      = (CV.integer (SVInt.ofNat 8 3 false), []) ∧
    Expr.eval (Expr.intLit (some (CV.integer (SVInt.ofNat 8 3 false)))
        (SVInt.ofNat 8 200 false)) ⟨false, false, []⟩
      = Expr.eval (Expr.intLit (some (CV.integer (SVInt.ofNat 8 3 false)))
        (SVInt.ofNat 8 200 false)) ⟨true, true, [(0, CV.invalid)]⟩ := by
  exact memoizedConstantDeterminism _ _ _ _ rfl

/-- C8: implicit named port connections require type equivalence - when
lookup resolves the port's name to a value of some type, the connection is
established exactly when that type is equivalent to the port's type, and an
inequivalent (even assignment-compatible) type is diagnosed as
`ImplicitNamedPortTypeMismatch` with the port left unconnected. -/
theorem implicitNamedPortEquivalence (portType exprType : Ty)
    (hasDefault isWildcard : Bool) (hport : portType.isError = false) :
    (exprType.isEquivalent portType = true →
      PortConnectionBuilder.implicitNamedPort portType hasDefault isWildcard
          (LookupOutcome.found exprType false)
        = (some (PortConnKind.exprConn portType), [])) ∧
    (exprType.isEquivalent portType = false →
      PortConnectionBuilder.implicitNamedPort portType hasDefault isWildcard
          (LookupOutcome.found exprType false)
        = (none, [DiagCode.ImplicitNamedPortTypeMismatch])) := by
  constructor <;> intro h <;>
    simp [PortConnectionBuilder.implicitNamedPort, hport, h]

/-- Witness for C8: connecting a `real` value to an `int` port - the two
types are assignment compatible but not equivalent, so the implicit named
connection is rejected with `ImplicitNamedPortTypeMismatch`. -/
theorem implicitNamedPortEquivalence_witness :
    PortConnectionBuilder.implicitNamedPort (Ty.predefInt PredefKind.int true) false true
        (LookupOutcome.found (Ty.floating FloatKind.real) false)
      = (none, [DiagCode.ImplicitNamedPortTypeMismatch]) ∧
    (Ty.floating FloatKind.real).isAssignmentCompatible (Ty.predefInt PredefKind.int true)
      = true := by
  constructor
  · apply (implicitNamedPortEquivalence (Ty.predefInt PredefKind.int true)
      (Ty.floating FloatKind.real) false true (by decide)).2
    simp [Ty.isEquivalent, Ty.canonical]
    unfold eCore
    unfold mCore
    simp [Ty.isScalar, Ty.isFloating, Ty.isIntegral, Ty.isIntegralKind, Ty.isEnum,
      Ty.isSimpleBitVector, Ty.isPredefinedInteger, Ty.canonical]
  · simp [Ty.isAssignmentCompatible, Ty.canonical]
    unfold aCore
    unfold eCore
    unfold mCore
    simp [Ty.isScalar, Ty.isFloating, Ty.isIntegral, Ty.isIntegralKind, Ty.isEnum,
      Ty.isSimpleBitVector, Ty.isPredefinedInteger, Ty.canonical]

/-- The determination condition of the short-circuit switch in
`BinaryExpression::evalImpl`: a true left value determines `||`, a false
left value determines `&&` and `->`. -/
def lhsDetermines (op : BinOp) (cvl : CV) : Bool :=
  match op with
  | .logicalOr => cvl.isTrue
  | .logicalAnd => cvl.isFalse
  | .logicalImplication => cvl.isFalse
  | _ => false

/-- The determined 1-bit result returned by the short-circuit switch:
`SVInt(true)` for `||` and `->`, `SVInt(false)` for `&&`. -/
def determinedResult (op : BinOp) : CV :=
  match op with
  | .logicalAnd => CV.integer (SVInt.ofBool false)
  | _ => CV.integer (SVInt.ofBool true)

/-- C6: short-circuit constant evaluation - for `&&`, `||` and `->`, when
the left operand's value determines the result the evaluator returns the
determined single-bit result without evaluating the right operand (the
outcome, diagnostics included, is independent of the right operand); when
the left operand has a value that does not determine the result - for the
short-circuit operators as well as every other binary operator - both
operands are evaluated (the diagnostics of both operands are recorded). -/
theorem shortCircuitEval (op : BinOp) (l r1 r2 : Expr) (ctx : EvalContext) :
    (isShortCircuitOp op = true → lhsDetermines op (Expr.eval l ctx).1 = true →
      Expr.eval (Expr.binary none op l r1) ctx
          = (determinedResult op, (Expr.eval l ctx).2) ∧
      (determinedResult op).integerVal.width = 1 ∧
      Expr.eval (Expr.binary none op l r1) ctx
          = Expr.eval (Expr.binary none op l r2) ctx) ∧
    ((Expr.eval l ctx).1.isInvalid = false →
     lhsDetermines op (Expr.eval l ctx).1 = false →
      (Expr.eval (Expr.binary none op l r1) ctx).2
          = (Expr.eval l ctx).2 ++ (Expr.eval r1 ctx).2) := by
  constructor
  · intro hop hdet
    cases op with
    | add => simp [isShortCircuitOp] at hop
    | logicalEquivalence => simp [isShortCircuitOp] at hop
    | logicalOr =>
      have ht : (Expr.eval l ctx).1.isTrue = true := by
        simpa [lhsDetermines] using hdet
      have hinv := CV.isTrue_not_invalid _ ht
      refine ⟨?_, by decide, ?_⟩ <;>
        simp [Expr.eval, withMemo, hinv, ht, determinedResult]
    | logicalAnd =>
      have ht : (Expr.eval l ctx).1.isFalse = true := by
        simpa [lhsDetermines] using hdet
      have hinv := CV.isFalse_not_invalid _ ht
      refine ⟨?_, by decide, ?_⟩ <;>
        simp [Expr.eval, withMemo, hinv, ht, determinedResult]
    | logicalImplication =>
      have ht : (Expr.eval l ctx).1.isFalse = true := by
        simpa [lhsDetermines] using hdet
      have hinv := CV.isFalse_not_invalid _ ht
      refine ⟨?_, by decide, ?_⟩ <;>
        simp [Expr.eval, withMemo, hinv, ht, determinedResult]
  · intro hinv hdet
    cases op <;>
      simp only [lhsDetermines] at hdet <;>
      cases hc : (Expr.eval r1 ctx).1.isInvalid <;>
      simp [Expr.eval, withMemo, hinv, hdet, hc]

/-- An element select guaranteed to record an out-of-bounds diagnostic:
bit 9 of a `logic [3:0]` value. -/
def oobSelect : Expr :=
  Expr.elemSelect none (Ty.packedArray (Ty.scalar ScalarKind.logic false) ⟨3, 0⟩)
    (Ty.scalar ScalarKind.logic false)
    (Expr.intLit none (SVInt.ofNat 4 5 false))
    (Expr.intLit none (SVInt.ofNat 32 9 false))

/-- Witness for C6: a false `&&` left operand short-circuits - the
diagnostic-producing right operand is never evaluated (replacing it with a
plain literal gives the same outcome) - while `->` with a true left operand
does evaluate the same right operand and records its diagnostic. -/
theorem shortCircuitEval_witness :
    Expr.eval (Expr.binary none BinOp.logicalAnd
        (Expr.intLit none (SVInt.ofNat 1 0 false)) oobSelect) ⟨false, false, []⟩
      = (determinedResult BinOp.logicalAnd, []) ∧
    Expr.eval (Expr.binary none BinOp.logicalAnd
        (Expr.intLit none (SVInt.ofNat 1 0 false)) oobSelect) ⟨false, false, []⟩
      = Expr.eval (Expr.binary none BinOp.logicalAnd
          (Expr.intLit none (SVInt.ofNat 1 0 false))
          (Expr.intLit none (SVInt.ofNat 1 1 false))) ⟨false, false, []⟩ ∧
    (Expr.eval (Expr.binary none BinOp.logicalImplication
        (Expr.intLit none (SVInt.ofNat 1 1 false)) oobSelect) ⟨false, false, []⟩).2
      = [DiagCode.NoteArrayIndexInvalid] := by
  have h1 := (shortCircuitEval BinOp.logicalAnd
    (Expr.intLit none (SVInt.ofNat 1 0 false)) oobSelect
    (Expr.intLit none (SVInt.ofNat 1 1 false)) ⟨false, false, []⟩).1 (by decide) (by decide)
  have h2 := (shortCircuitEval BinOp.logicalImplication
    (Expr.intLit none (SVInt.ofNat 1 1 false)) oobSelect oobSelect ⟨false, false, []⟩).2
    (by decide) (by decide)
  exact ⟨h1.1, h1.2.2, by rw [h2]; rfl⟩

/-- C3: enum enumerand numbering in `EnumType::fromSyntax` - an enumerand
with an explicit initializer takes that constant value; the first
enumerand without an initializer takes the value 0 of the base type;
every subsequent uninitialized enumerand takes the previous value plus
one; a previous value with unknown bits raises `EnumIncrementUnknown` and
a previous value equal to the all-ones pattern of the base type raises
`EnumValueOverflow` (the enumerand then receives no value); a repeated
enumerand value raises `EnumValueDuplicate`.  `W`/`S` are the base type's
bit width and signedness, `st` any numbering state. -/
theorem enumNumbering (W : Nat) (S : Bool) (st : EnumNumState) :
    (∀ v, (enumStep W S (SVInt.allOnes W S) st (EnumMemberSyntax.withInit (some v))).values
        = st.values ++ [some v]) ∧
    (st.first = true →
     st.used.any (fun u => u.sameBits (SVInt.ofNat W 0 S)) = false →
      (enumStep W S (SVInt.allOnes W S) st EnumMemberSyntax.noInit).values
        = st.values ++ [some (SVInt.ofNat W 0 S)]) ∧
    (st.first = false → st.previous.hasUnknown = false →
     st.previous.eqKnownB (SVInt.allOnes W S) = false →
     st.used.any (fun u => u.sameBits st.previous.plusOne) = false →
      (enumStep W S (SVInt.allOnes W S) st EnumMemberSyntax.noInit).values
        = st.values ++ [some st.previous.plusOne]) ∧
    (st.first = false → st.previous.hasUnknown = true →
      (enumStep W S (SVInt.allOnes W S) st EnumMemberSyntax.noInit)
        = { st with diags := st.diags ++ [DiagCode.EnumIncrementUnknown],
                    values := st.values ++ [none] }) ∧
    (st.first = false → st.previous.hasUnknown = false →
     st.previous.eqKnownB (SVInt.allOnes W S) = true →
      (enumStep W S (SVInt.allOnes W S) st EnumMemberSyntax.noInit)
        = { st with diags := st.diags ++ [DiagCode.EnumValueOverflow],
                    values := st.values ++ [none] }) ∧
    (∀ v, st.used.any (fun u => u.sameBits v) = true →
      (enumStep W S (SVInt.allOnes W S) st (EnumMemberSyntax.withInit (some v))).diags
        = st.diags ++ [DiagCode.EnumValueDuplicate]) ∧
    (st.first = false → st.previous.hasUnknown = false →
     st.previous.eqKnownB (SVInt.allOnes W S) = false →
     st.used.any (fun u => u.sameBits st.previous.plusOne) = true →
      (enumStep W S (SVInt.allOnes W S) st EnumMemberSyntax.noInit).diags
          = st.diags ++ [DiagCode.EnumValueDuplicate] ∧
      (enumStep W S (SVInt.allOnes W S) st EnumMemberSyntax.noInit).values
          = st.values ++ [none]) := by
  refine ⟨?_, ?_, ?_, ?_, ?_, ?_, ?_⟩
  · intro v
    cases hdup : st.used.any (fun u => u.sameBits v) <;>
      simp [enumStep, enumSetInit, enumCheckValue, hdup]
  · intro h1 h2
    simp [enumStep, enumInferValue, enumCheckValue, h1, h2]
  · intro h1 h2 h3 h4
    simp [enumStep, enumInferValue, enumCheckValue, h1, h2, h3, h4]
  · intro h1 h2
    simp [enumStep, enumInferValue, h1, h2]
  · intro h1 h2 h3
    simp [enumStep, enumInferValue, h1, h2, h3]
  · intro v hdup
    simp [enumStep, enumSetInit, enumCheckValue, hdup]
  · intro h1 h2 h3 h4
    constructor <;> simp [enumStep, enumInferValue, enumCheckValue, h1, h2, h3, h4]

/-- Witness for C3, including the spec's scenario `enum bit[1:0] {A=3, B}`:
after `A=3`, the uninitialized `B` overflows the 2-bit base type and gets
`EnumValueOverflow`; also a first uninitialized enumerand takes zero, and a
repeated explicit value is diagnosed as duplicate. -/
theorem enumNumbering_witness :
    (enumStep 2 false (SVInt.allOnes 2 false)
        (enumNumber 2 false [EnumMemberSyntax.withInit (some (SVInt.ofNat 2 3 false))])
        EnumMemberSyntax.noInit).diags = [DiagCode.EnumValueOverflow] ∧
    (enumStep 2 false (SVInt.allOnes 2 false)
        (enumNumber 2 false []) EnumMemberSyntax.noInit).values
      = [some (SVInt.ofNat 2 0 false)] ∧
    (enumStep 2 false (SVInt.allOnes 2 false)
        (enumNumber 2 false [EnumMemberSyntax.withInit (some (SVInt.ofNat 2 3 false))])
        (EnumMemberSyntax.withInit (some (SVInt.ofNat 2 3 false)))).diags
      = [DiagCode.EnumValueDuplicate] := by
  refine ⟨?_, ?_, ?_⟩
  · have h := (enumNumbering 2 false
      (enumNumber 2 false [EnumMemberSyntax.withInit
        (some (SVInt.ofNat 2 3 false))])).2.2.2.2.1 (by decide) (by decide) (by decide)
    rw [h]
    rfl
  · have h := (enumNumbering 2 false (enumNumber 2 false [])).2.1 (by decide) (by decide)
    rw [h]
    rfl
  · have h := ((enumNumbering 2 false
      (enumNumber 2 false [EnumMemberSyntax.withInit
        (some (SVInt.ofNat 2 3 false))])).2.2.2.2.2.1
      (SVInt.ofNat 2 3 false)) (by decide)
    rw [h]
    rfl

/-- The declarator loop of the packed-struct scan adds `n` fields of the
member type and `n` times its width. -/
theorem packedStructAddDecls_spec (ty : Ty) (n : Nat) :
    ∀ bw fs, (packedStructAddDecls ty n (bw, fs)).1 = bw + n * ty.getBitWidth ∧
      (packedStructAddDecls ty n (bw, fs)).2.map (fun p => p.1.getBitWidth)
        = fs.map (fun p => p.1.getBitWidth) ++ List.replicate n ty.getBitWidth := by
  induction n with
  | zero => intro bw fs; simp [packedStructAddDecls]
  | succ n ih =>
    intro bw fs
    obtain ⟨h1, h2⟩ := ih (bw + ty.getBitWidth) (fs ++ [(ty, bw)])
    constructor
    · simp only [packedStructAddDecls, h1]
      ring
    · simp only [packedStructAddDecls, h2]
      simp [List.replicate_succ]

/-- A packed-struct scan step preserves the invariant that the running
width equals the sum of the widths of the created field types. -/
theorem packedStructStep_width (acc : PSAcc) (m : StructMemberSyntax)
    (h : acc.bitWidth = (acc.fields.map (fun p => p.1.getBitWidth)).sum) :
    (packedStructStep acc m).bitWidth
      = ((packedStructStep acc m).fields.map (fun p => p.1.getBitWidth)).sum := by
  obtain ⟨h1, h2⟩ := packedStructAddDecls_spec m.ty m.declCount acc.bitWidth acc.fields
  simp only [packedStructStep, h1, h2]
  simp [List.sum_append, List.sum_replicate, smul_eq_mul, h]

/-- The packed-struct member fold preserves the width invariant. -/
theorem packedStructFold_width (members : List StructMemberSyntax) :
    ∀ acc : PSAcc, acc.bitWidth = (acc.fields.map (fun p => p.1.getBitWidth)).sum →
      (members.foldl packedStructStep acc).bitWidth
        = ((members.foldl packedStructStep acc).fields.map (fun p => p.1.getBitWidth)).sum := by
  induction members with
  | nil => intro acc h; simpa using h
  | cons m ms ih => intro acc h; exact ih _ (packedStructStep_width acc m h)

/-- A nonzero union width is never changed by the declarator loop. -/
theorem packedUnionDecls_keep (ty : Ty) (n : Nat) :
    ∀ bw issued fs ds, bw ≠ 0 → (packedUnionDecls ty n bw issued fs ds).1 = bw := by
  induction n with
  | zero => intro bw issued fs ds h; simp [packedUnionDecls]
  | succ n ih =>
    intro bw issued fs ds h
    simp only [packedUnionDecls]
    rw [if_neg h]
    by_cases hc : (decide (ty.getBitWidth ≠ bw) && !issued) = true
    · rw [if_pos hc]; exact ih bw true _ _ h
    · rw [if_neg hc]; exact ih bw issued _ _ h

/-- Diagnostics already recorded survive the union declarator loop. -/
theorem packedUnionDecls_mono (ty : Ty) (n : Nat) :
    ∀ bw issued fs ds d, d ∈ ds → d ∈ (packedUnionDecls ty n bw issued fs ds).2.2.2 := by
  induction n with
  | zero => intro bw issued fs ds d h; simpa [packedUnionDecls] using h
  | succ n ih =>
    intro bw issued fs ds d h
    simp only [packedUnionDecls]
    by_cases h0 : bw = 0
    · rw [if_pos h0]; exact ih _ _ _ _ _ h
    · rw [if_neg h0]
      by_cases hc : (decide (ty.getBitWidth ≠ bw) && !issued) = true
      · rw [if_pos hc]
        exact ih _ _ _ _ _ (List.mem_append_left _ h)
      · rw [if_neg hc]; exact ih _ _ _ _ _ h

/-- A declarator whose member type width differs from an established union
width, with no prior error on the member, records the mismatch. -/
theorem packedUnionDecls_hit (ty : Ty) (n : Nat) (bw : Nat) (fs : List Ty)
    (ds : List DiagCode) (h0 : bw ≠ 0) (hne : ty.getBitWidth ≠ bw) (hn : n ≠ 0) :
    DiagCode.PackedUnionWidthMismatch ∈ (packedUnionDecls ty n bw false fs ds).2.2.2 := by
  cases n with
  | zero => exact absurd rfl hn
  | succ n =>
    simp only [packedUnionDecls]
    rw [if_neg h0, if_pos (by simp [hne])]
    exact packedUnionDecls_mono ty n _ _ _ _ _ (by simp)

/-- When the member type width agrees with the established union width the
declarator loop changes neither the width nor the diagnostics. -/
theorem packedUnionDecls_agree (ty : Ty) (n : Nat) :
    ∀ bw issued fs ds, ty.getBitWidth = bw → bw ≠ 0 →
      (packedUnionDecls ty n bw issued fs ds).1 = bw ∧
      (packedUnionDecls ty n bw issued fs ds).2.2.2 = ds := by
  induction n with
  | zero => intro bw issued fs ds hw h0; simp [packedUnionDecls]
  | succ n ih =>
    intro bw issued fs ds hw h0
    simp only [packedUnionDecls]
    rw [if_neg h0, if_neg (by simp [hw])]
    exact ih bw issued _ _ hw h0

/-- With no width yet established, the first declarator installs the member
type width; further declarators of the member leave everything alone. -/
theorem packedUnionDecls_first (ty : Ty) (n : Nat) (issued : Bool) (fs : List Ty)
    (ds : List DiagCode) (hn : n ≠ 0) (hw : ty.getBitWidth ≠ 0) :
    (packedUnionDecls ty n 0 issued fs ds).1 = ty.getBitWidth ∧
    (packedUnionDecls ty n 0 issued fs ds).2.2.2 = ds := by
  cases n with
  | zero => exact absurd rfl hn
  | succ n =>
    simp only [packedUnionDecls, if_pos rfl]
    exact packedUnionDecls_agree ty n _ issued _ _ rfl hw

/-- Diagnostics survive a union member step. -/
theorem packedUnionStep_mono (acc : PUAcc) (m : StructMemberSyntax) (d : DiagCode)
    (h : d ∈ acc.diags) : d ∈ (packedUnionStep acc m).diags := by
  simp only [packedUnionStep]
  apply packedUnionDecls_mono
  by_cases hc : (!m.ty.isIntegral && !m.ty.isError) = true
  · rw [if_pos hc]; exact List.mem_append_left _ h
  · rw [if_neg hc]; exact h

/-- Diagnostics survive the union member fold. -/
theorem packedUnionFold_mono (ms : List StructMemberSyntax) :
    ∀ acc d, d ∈ acc.diags → d ∈ (ms.foldl packedUnionStep acc).diags := by
  induction ms with
  | nil => intro acc d h; simpa using h
  | cons m ms ih => intro acc d h; exact ih _ _ (packedUnionStep_mono acc m d h)

/-- A union member step when no width is established yet: an integral
member with at least one declarator installs its width; no diagnostic is
added. -/
theorem packedUnionStep_first (acc : PUAcc) (m : StructMemberSyntax)
    (hbw : acc.bitWidth = 0) (hint : m.ty.isIntegral = true)
    (hd : m.declCount ≠ 0) (hw : m.ty.getBitWidth ≠ 0) :
    (packedUnionStep acc m).bitWidth = m.ty.getBitWidth ∧
    (packedUnionStep acc m).diags = acc.diags := by
  have hiss : (!m.ty.isIntegral && !m.ty.isError) = false := by simp [hint]
  simp only [packedUnionStep, hiss, Bool.false_eq_true, if_false, hbw]
  exact packedUnionDecls_first m.ty m.declCount false acc.fields acc.diags hd hw

/-- A union member step whose member type width agrees with the established
width changes neither the width nor the diagnostics. -/
theorem packedUnionStep_agree (acc : PUAcc) (m : StructMemberSyntax)
    (hint : m.ty.isIntegral = true) (hw : m.ty.getBitWidth = acc.bitWidth)
    (h0 : acc.bitWidth ≠ 0) :
    (packedUnionStep acc m).bitWidth = acc.bitWidth ∧
    (packedUnionStep acc m).diags = acc.diags := by
  have hiss : (!m.ty.isIntegral && !m.ty.isError) = false := by simp [hint]
  simp only [packedUnionStep, hiss, Bool.false_eq_true, if_false]
  exact packedUnionDecls_agree m.ty m.declCount acc.bitWidth false acc.fields acc.diags hw h0

/-- A union member step whose integral member type width differs from the
established width records `PackedUnionWidthMismatch` and keeps the width. -/
theorem packedUnionStep_hit (acc : PUAcc) (m : StructMemberSyntax)
    (hint : m.ty.isIntegral = true) (hw : m.ty.getBitWidth ≠ acc.bitWidth)
    (h0 : acc.bitWidth ≠ 0) (hd : m.declCount ≠ 0) :
    DiagCode.PackedUnionWidthMismatch ∈ (packedUnionStep acc m).diags ∧
    (packedUnionStep acc m).bitWidth = acc.bitWidth := by
  have hiss : (!m.ty.isIntegral && !m.ty.isError) = false := by simp [hint]
  simp only [packedUnionStep, hiss, Bool.false_eq_true, if_false]
  exact ⟨packedUnionDecls_hit m.ty m.declCount acc.bitWidth acc.fields acc.diags h0 hw hd,
    packedUnionDecls_keep m.ty m.declCount acc.bitWidth false acc.fields acc.diags h0⟩

/-- With an established width, a fold over integral members one of which
has a differing width records `PackedUnionWidthMismatch`. -/
theorem packedUnionFold_mismatch (ms : List StructMemberSyntax) :
    ∀ acc : PUAcc, acc.bitWidth ≠ 0 →
      (∀ m ∈ ms, m.ty.isIntegral = true ∧ m.declCount ≠ 0) →
      (∃ m ∈ ms, m.ty.getBitWidth ≠ acc.bitWidth) →
      DiagCode.PackedUnionWidthMismatch ∈ (ms.foldl packedUnionStep acc).diags := by
  induction ms with
  | nil => intro acc _ _ hex; simp at hex
  | cons m ms ih =>
    intro acc h0 hall hex
    have hm := hall m (by simp)
    by_cases hw : m.ty.getBitWidth = acc.bitWidth
    · have hstep := packedUnionStep_agree acc m hm.1 hw h0
      obtain ⟨mm, hmm, hmw⟩ := hex
      rcases List.mem_cons.mp hmm with hmm | hmm
      · subst hmm; exact absurd hw hmw
      · exact ih (packedUnionStep acc m) (by rw [hstep.1]; exact h0)
          (fun x hx => hall x (List.mem_cons_of_mem _ hx))
          ⟨mm, hmm, by rw [hstep.1]; exact hmw⟩
    · have hstep := packedUnionStep_hit acc m hm.1 hw h0 hm.2
      exact packedUnionFold_mono ms (packedUnionStep acc m) _ hstep.1

/-- With every member integral and of the established width, the fold keeps
the width and the diagnostics. -/
theorem packedUnionFold_allEq (ms : List StructMemberSyntax) :
    ∀ acc : PUAcc, acc.bitWidth ≠ 0 →
      (∀ m ∈ ms, m.ty.getBitWidth = acc.bitWidth ∧ m.ty.isIntegral = true) →
      (ms.foldl packedUnionStep acc).bitWidth = acc.bitWidth ∧
      (ms.foldl packedUnionStep acc).diags = acc.diags := by
  induction ms with
  | nil => intro acc _ _; exact ⟨rfl, rfl⟩
  | cons m ms ih =>
    intro acc h0 hall
    have hm := hall m (by simp)
    have hstep := packedUnionStep_agree acc m hm.2 hm.1 h0
    obtain ⟨h1, h2⟩ := ih (packedUnionStep acc m) (by rw [hstep.1]; exact h0)
      (fun x hx => by
        have := hall x (List.mem_cons_of_mem _ hx)
        exact ⟨by rw [hstep.1]; exact this.1, this.2⟩)
    exact ⟨by simp only [List.foldl_cons]; rw [h1, hstep.1],
      by simp only [List.foldl_cons]; rw [h2, hstep.2]⟩

/-- The maximum of a nonempty constant list of naturals. -/
theorem foldrMaxConst (l : List Nat) (w : Nat) (h : ∀ x ∈ l, x = w) (hne : l ≠ []) :
    l.foldr max 0 = w := by
  induction l with
  | nil => exact absurd rfl hne
  | cons x xs ih =>
    have hx := h x (by simp)
    cases xs with
    | nil => simp [hx]
    | cons y ys =>
      have hrest := ih (fun a ha => h a (List.mem_cons_of_mem _ ha)) (by simp)
      simp only [List.foldr_cons] at hrest ⊢
      rw [hrest, hx]
      simp

/-- C4: width consistency of packed integral types - a constructed packed
struct's bit width is the sum of the bit widths of its field types; a
packed union whose members all share one (hence maximal) nonzero width
gets exactly that width with no `PackedUnionWidthMismatch`, while an
integral member whose width differs from the established width is
diagnosed with `PackedUnionWidthMismatch`; and a packed array's bit width
is the element type's bit width times the number of elements of the
range. -/
theorem packedWidthConsistency :
    (∀ uid members isSigned w sg f4,
      (PackedStructType.fromSyntax uid members isSigned).ty = Ty.packedStruct uid w sg f4 →
      w = ((PackedStructType.fromSyntax uid members isSigned).fields.map
            (fun p => p.1.getBitWidth)).sum) ∧
    (∀ uid members isSigned w, w ≠ 0 → members ≠ [] →
      (∀ m ∈ members, m.ty.getBitWidth = w ∧ m.declCount ≠ 0 ∧ m.ty.isIntegral = true) →
      (∃ f4, (PackedUnionType.fromSyntax uid members isSigned).ty
          = Ty.packedUnion uid w isSigned f4) ∧
      ((members.map (fun m => m.ty.getBitWidth)).foldr max 0 = w) ∧
      DiagCode.PackedUnionWidthMismatch ∉ (PackedUnionType.fromSyntax uid members isSigned).diags) ∧
    (∀ uid m0 rest isSigned,
      (∀ m ∈ m0 :: rest, m.ty.isIntegral = true ∧ m.declCount ≠ 0) →
      m0.ty.getBitWidth ≠ 0 →
      (∃ m ∈ rest, m.ty.getBitWidth ≠ m0.ty.getBitWidth) →
      DiagCode.PackedUnionWidthMismatch
        ∈ (PackedUnionType.fromSyntax uid (m0 :: rest) isSigned).diags) ∧
    (∀ elem range, elem.isError = false →
      (PackedArrayType.fromSyntax elem range).getBitWidth
        = elem.getBitWidth * range.width) := by
  refine ⟨?_, ?_, ?_, ?_⟩
  · intro uid members isSigned w sg f4 hty
    have hinv := packedStructFold_width members.reverse ⟨0, false, [], []⟩ (by simp)
    simp only [PackedStructType.fromSyntax] at hty ⊢
    by_cases h0 : (members.reverse.foldl packedStructStep ⟨0, false, [], []⟩).bitWidth = 0
    · rw [if_pos h0] at hty; cases hty
    · rw [if_neg h0] at hty ⊢
      injection hty with _ hw _ _
      rw [← hw]
      exact hinv
  · intro uid members isSigned w h0 hne hall
    cases members with
    | nil => exact absurd rfl hne
    | cons m0 rest =>
      have hm0 := hall m0 (by simp)
      have hfirst := packedUnionStep_first ⟨0, false, [], []⟩ m0 rfl hm0.2.2 hm0.2.1
        (by rw [hm0.1]; exact h0)
      have hfold := packedUnionFold_allEq rest (packedUnionStep ⟨0, false, [], []⟩ m0)
        (by rw [hfirst.1, hm0.1]; exact h0)
        (fun x hx => by
          have := hall x (List.mem_cons_of_mem _ hx)
          exact ⟨by rw [hfirst.1, hm0.1]; exact this.1, this.2.2⟩)
      have hbw : ((m0 :: rest).foldl packedUnionStep ⟨0, false, [], []⟩).bitWidth = w := by
        simp only [List.foldl_cons]
        rw [hfold.1, hfirst.1, hm0.1]
      have hds : ((m0 :: rest).foldl packedUnionStep ⟨0, false, [], []⟩).diags = [] := by
        simp only [List.foldl_cons]
        rw [hfold.2, hfirst.2]
      refine ⟨⟨((m0 :: rest).foldl packedUnionStep ⟨0, false, [], []⟩).isFourState, ?_⟩, ?_, ?_⟩
      · simp only [PackedUnionType.fromSyntax]
        rw [if_neg (by rw [hbw]; exact h0), hbw]
      · exact foldrMaxConst _ w (by
          intro x hx
          obtain ⟨m, hm, hmx⟩ := List.mem_map.mp hx
          rw [← hmx]; exact (hall m hm).1) (by simp)
      · simp only [PackedUnionType.fromSyntax]
        rw [if_neg (by rw [hbw]; exact h0)]
        simp only [hds]
        simp
  · intro uid m0 rest isSigned hall h0 hex
    have hm0 := hall m0 (by simp)
    have hfirst := packedUnionStep_first ⟨0, false, [], []⟩ m0 rfl hm0.1 hm0.2 h0
    have hmem := packedUnionFold_mismatch rest (packedUnionStep ⟨0, false, [], []⟩ m0)
      (by rw [hfirst.1]; exact h0)
      (fun x hx => hall x (List.mem_cons_of_mem _ hx))
      (by
        obtain ⟨m, hm, hmw⟩ := hex
        exact ⟨m, hm, by rw [hfirst.1]; exact hmw⟩)
    simp only [PackedUnionType.fromSyntax]
    by_cases hz : ((m0 :: rest).foldl packedUnionStep ⟨0, false, [], []⟩).bitWidth = 0
    · rw [if_pos hz]
      simpa using hmem
    · rw [if_neg hz]
      simpa using hmem
  · intro elem range herr
    simp only [PackedArrayType.fromSyntax, herr, Bool.false_eq_true, if_false]
    rfl

/-- Witness for C4 at concrete types: a packed struct of an `int` field and
two 2-bit vector fields has width 36; a packed union of `int` and `integer`
members has the common width 32 with no mismatch diagnostic; a packed union
of a 2-bit and a 1-bit member is diagnosed; a `logic [3:0]` packed array
has width 4. -/
theorem packedWidthConsistency_witness :
    (36 : Nat) = (((PackedStructType.fromSyntax 0
        [⟨Ty.predefInt PredefKind.int true, 1⟩,
         ⟨Ty.packedArray (Ty.scalar ScalarKind.logic false) ⟨1, 0⟩, 2⟩] false).fields.map
          (fun p => p.1.getBitWidth)).sum) ∧
    (∃ f4, (PackedUnionType.fromSyntax 1
        [⟨Ty.predefInt PredefKind.int true, 1⟩,
         ⟨Ty.predefInt PredefKind.integer false, 1⟩] false).ty
      = Ty.packedUnion 1 32 false f4) ∧
    DiagCode.PackedUnionWidthMismatch
      ∈ (PackedUnionType.fromSyntax 2
          [⟨Ty.packedArray (Ty.scalar ScalarKind.logic false) ⟨1, 0⟩, 1⟩,
           ⟨Ty.scalar ScalarKind.bit false, 1⟩] false).diags ∧
    (PackedArrayType.fromSyntax (Ty.scalar ScalarKind.logic false) ⟨3, 0⟩).getBitWidth = 4 := by
  refine ⟨?_, ?_, ?_, ?_⟩
  · exact packedWidthConsistency.1 0
      [⟨Ty.predefInt PredefKind.int true, 1⟩,
       ⟨Ty.packedArray (Ty.scalar ScalarKind.logic false) ⟨1, 0⟩, 2⟩] false 36 false true
      (by decide)
  · exact (packedWidthConsistency.2.1 1
      [⟨Ty.predefInt PredefKind.int true, 1⟩,
       ⟨Ty.predefInt PredefKind.integer false, 1⟩] false 32 (by decide) (by decide)
      (by decide)).1
  · exact packedWidthConsistency.2.2.1 2
      ⟨Ty.packedArray (Ty.scalar ScalarKind.logic false) ⟨1, 0⟩, 1⟩
      [⟨Ty.scalar ScalarKind.bit false, 1⟩] false (by decide) (by decide)
      ⟨⟨Ty.scalar ScalarKind.bit false, 1⟩, by decide⟩
  · have h := packedWidthConsistency.2.2.2 (Ty.scalar ScalarKind.logic false) ⟨3, 0⟩ (by decide)
    rw [h]
    rfl


/-- A non-string element select whose index is unrepresentable or out of
range fails with `NoteArrayIndexInvalid`. -/
theorem checkArrayIndex_err (ty : Ty) (cs : CV) (str : String)
    (hstr : ty.isString = false)
    (hbad : cs.integerVal.asInt32 = none ∨
      ∃ i, cs.integerVal.asInt32 = some i ∧ ty.getArrayRange.containsPoint i = false) :
    checkArrayIndex ty cs str = IndexCheck.err DiagCode.NoteArrayIndexInvalid := by
  rcases hbad with h | ⟨i, hi, hc⟩
  · simp [checkArrayIndex, h]
  · simp [checkArrayIndex, hi, hstr, hc]

/-- An indexed range select whose left bound is unrepresentable fails with
`NoteArrayIndexInvalid` (not `NotePartSelectInvalid`). -/
theorem getRange_unrepresentable (selectionKind : RangeSelKind)
    (valueType exprType : Ty) (cl cr : CV)
    (hk : selectionKind ≠ RangeSelKind.simple)
    (hnone : cl.integerVal.asInt32 = none) :
    RangeSelect.getRange selectionKind valueType exprType cl cr
      = Except.error DiagCode.NoteArrayIndexInvalid := by
  cases selectionKind with
  | simple => exact absurd rfl hk
  | indexedUp => simp [RangeSelect.getRange, hnone]
  | indexedDown => simp [RangeSelect.getRange, hnone]

/-- A simple range select whose bounds are not contained in the value's
range fails with `NotePartSelectInvalid`. -/
theorem getRange_oobSimple (valueType exprType : Ty) (cl cr : CV)
    (hc : valueType.getArrayRange.containsPoint exprType.getArrayRange.left = false ∨
          valueType.getArrayRange.containsPoint exprType.getArrayRange.right = false) :
    RangeSelect.getRange RangeSelKind.simple valueType exprType cl cr
      = Except.error DiagCode.NotePartSelectInvalid := by
  rcases hc with h | h <;> simp [RangeSelect.getRange, h]

/-- C7 counterexample: an indexed range select `[2147483648 +: 1]` on a
`logic [3:0]` value - the base index cannot be represented as an `int32` -
records `NoteArrayIndexInvalid`, not the `NotePartSelectInvalid` the claim
assigns to range selects. -/
theorem rangeSelectDiag_counterexample :
    Expr.eval (Expr.rangeSelect none RangeSelKind.indexedUp
        (Ty.packedArray (Ty.scalar ScalarKind.logic false) ⟨3, 0⟩)
        (Ty.packedArray (Ty.scalar ScalarKind.logic false) ⟨0, 0⟩)
        (Expr.intLit none (SVInt.ofNat 4 5 false))
        (Expr.intLit none (SVInt.ofNat 32 (2 ^ 31) false))
        (Expr.intLit none (SVInt.ofNat 32 1 false))) ⟨false, false, []⟩
      = (CV.invalid, [DiagCode.NoteArrayIndexInvalid]) ∧
    [DiagCode.NoteArrayIndexInvalid] ≠ [DiagCode.NotePartSelectInvalid] := by
  exact ⟨rfl, by decide⟩

/-- C7, amended: out-of-bounds constant evaluation - an element select
whose index cannot be represented as an `int32` or lies outside the
target's range records `NoteArrayIndexInvalid` and produces the invalid
value; a range select records `NotePartSelectInvalid` when its bounds lie
outside the value's range, but an indexed range select whose base index
cannot be represented as an `int32` records `NoteArrayIndexInvalid`
instead; in each case the result is invalid, and enclosing expressions
(unary and binary operators, selects) propagate an invalid operand upward
without emitting further diagnostics. -/
theorem outOfBoundsEval (ctx : EvalContext) :
    (∀ valueType exprType v s,
      (Expr.eval v ctx).1.isInvalid = false → (Expr.eval s ctx).1.isInvalid = false →
      valueType.isString = false →
      ((Expr.eval s ctx).1.integerVal.asInt32 = none ∨
        ∃ i, (Expr.eval s ctx).1.integerVal.asInt32 = some i ∧
          valueType.getArrayRange.containsPoint i = false) →
      Expr.eval (Expr.elemSelect none valueType exprType v s) ctx
        = (CV.invalid,
           (Expr.eval v ctx).2 ++ (Expr.eval s ctx).2 ++ [DiagCode.NoteArrayIndexInvalid])) ∧
    (∀ selectionKind valueType exprType v le re d,
      (Expr.eval v ctx).1.isInvalid = false → (Expr.eval le ctx).1.isInvalid = false →
      (Expr.eval re ctx).1.isInvalid = false →
      RangeSelect.getRange selectionKind valueType exprType
          (Expr.eval le ctx).1 (Expr.eval re ctx).1 = Except.error d →
      Expr.eval (Expr.rangeSelect none selectionKind valueType exprType v le re) ctx
        = (CV.invalid,
           (Expr.eval v ctx).2 ++ (Expr.eval le ctx).2 ++ (Expr.eval re ctx).2 ++ [d])) ∧
    (∀ valueType exprType cl cr,
      valueType.getArrayRange.containsPoint exprType.getArrayRange.left = false ∨
      valueType.getArrayRange.containsPoint exprType.getArrayRange.right = false →
      RangeSelect.getRange RangeSelKind.simple valueType exprType cl cr
        = Except.error DiagCode.NotePartSelectInvalid) ∧
    (∀ selectionKind valueType exprType cl cr,
      selectionKind ≠ RangeSelKind.simple → cl.integerVal.asInt32 = none →
      RangeSelect.getRange selectionKind valueType exprType cl cr
        = Except.error DiagCode.NoteArrayIndexInvalid) ∧
    (∀ op a, (Expr.eval a ctx).1.isInvalid = true →
      Expr.eval (Expr.unary none op a) ctx = (CV.invalid, (Expr.eval a ctx).2)) ∧
    (∀ op l r, (Expr.eval l ctx).1.isInvalid = true →
      Expr.eval (Expr.binary none op l r) ctx = (CV.invalid, (Expr.eval l ctx).2)) ∧
    (∀ valueType exprType v s,
      (Expr.eval v ctx).1.isInvalid = true ∨ (Expr.eval s ctx).1.isInvalid = true →
      Expr.eval (Expr.elemSelect none valueType exprType v s) ctx
        = (CV.invalid, (Expr.eval v ctx).2 ++ (Expr.eval s ctx).2)) := by
  refine ⟨?_, ?_, ?_, ?_, ?_, ?_, ?_⟩
  · intro valueType exprType v s hv hs hstr hbad
    have hchk := checkArrayIndex_err valueType (Expr.eval s ctx).1
      (if valueType.isString = true then (Expr.eval v ctx).1.strVal else "") hstr hbad
    simp [Expr.eval, withMemo, hv, hs, hchk]
  · intro selectionKind valueType exprType v le re d hv hl hr hran
    simp [Expr.eval, withMemo, hv, hl, hr, hran]
  · exact getRange_oobSimple
  · exact fun sk vt et cl cr hk hn => getRange_unrepresentable sk vt et cl cr hk hn
  · intro op a ha
    simp [Expr.eval, withMemo, ha]
  · intro op l r hl
    simp [Expr.eval, withMemo, hl]
  · intro valueType exprType v s h
    rcases h with h | h <;> simp [Expr.eval, withMemo, h]

/-- Witness for the amended C7: bit 9 of a `logic [3:0]` value records
`NoteArrayIndexInvalid` and yields invalid; a simple range select
`[5:4]` of the same value records `NotePartSelectInvalid`; negating the
failed element select propagates the invalid value with no further
diagnostic. -/
theorem outOfBoundsEval_witness :
    Expr.eval oobSelect ⟨false, false, []⟩
      = (CV.invalid, [DiagCode.NoteArrayIndexInvalid]) ∧
    Expr.eval (Expr.rangeSelect none RangeSelKind.simple
        (Ty.packedArray (Ty.scalar ScalarKind.logic false) ⟨3, 0⟩)
        (Ty.packedArray (Ty.scalar ScalarKind.logic false) ⟨5, 4⟩)
        (Expr.intLit none (SVInt.ofNat 4 5 false))
        (Expr.intLit none (SVInt.ofNat 32 5 false))
        (Expr.intLit none (SVInt.ofNat 32 4 false))) ⟨false, false, []⟩
      = (CV.invalid, [DiagCode.NotePartSelectInvalid]) ∧
    Expr.eval (Expr.unary none UnOp.minus oobSelect) ⟨false, false, []⟩
      = (CV.invalid, [DiagCode.NoteArrayIndexInvalid]) := by
  refine ⟨?_, ?_, ?_⟩
  · exact (outOfBoundsEval ⟨false, false, []⟩).1
      (Ty.packedArray (Ty.scalar ScalarKind.logic false) ⟨3, 0⟩)
      (Ty.scalar ScalarKind.logic false)
      (Expr.intLit none (SVInt.ofNat 4 5 false))
      (Expr.intLit none (SVInt.ofNat 32 9 false))
      (by decide) (by decide) (by decide)
      (Or.inr ⟨9, by decide, by decide⟩)
  · have hr := (outOfBoundsEval ⟨false, false, []⟩).2.2.1
      (Ty.packedArray (Ty.scalar ScalarKind.logic false) ⟨3, 0⟩)
      (Ty.packedArray (Ty.scalar ScalarKind.logic false) ⟨5, 4⟩)
      (CV.integer (SVInt.ofNat 32 5 false)) (CV.integer (SVInt.ofNat 32 4 false))
      (Or.inl (by decide))
    exact (outOfBoundsEval ⟨false, false, []⟩).2.1 RangeSelKind.simple
      (Ty.packedArray (Ty.scalar ScalarKind.logic false) ⟨3, 0⟩)
      (Ty.packedArray (Ty.scalar ScalarKind.logic false) ⟨5, 4⟩)
      (Expr.intLit none (SVInt.ofNat 4 5 false))
      (Expr.intLit none (SVInt.ofNat 32 5 false))
      (Expr.intLit none (SVInt.ofNat 32 4 false))
      DiagCode.NotePartSelectInvalid
      (by decide) (by decide) (by decide) hr
  · exact (outOfBoundsEval ⟨false, false, []⟩).2.2.2.2.1 UnOp.minus oobSelect (by decide)

end Slang
